import Mathlib

/-!
# queuectl: the job lifecycle engine

A shallow embedding of `src/db.js`, `src/config.js`, `src/queue.js`,
`src/status.js` and `src/worker-process.js`.

* The SQLite file is a value `Db`: the rows of table `jobs` in rowid order and
  the rows of table `config`.  Every SQL statement the sources issue is one
  function on `Db`.
* A timestamp column holds the text `new Date(t).toISOString()`.  The model
  keeps the time value `t` (milliseconds since the epoch) and compares two
  timestamps the way SQLite compares the two texts, byte by byte (`isoLe`).
* An `await` is a sequence point; the reads of the clock are arguments.
* JavaScript numbers appear only where `processJob` computes the retry time.
  They are modelled by exact integers, `NaN` by `none`: whenever the exact
  result is a valid time value the operands are integers that doubles hold
  exactly, and whenever it is not, the double result is no valid time value
  either.
* A payload is what `enqueueJob` reads of it: `id` and `command` as optional
  strings, `max_retries` as an optional integer or string.  What SQLite stores
  for a bound `max_retries` is followed for numbers and plain integer literals
  only (`storedMaxRetries`); for every other text the test of `processJob` is
  a parameter of the model, and the theorems hold for every value of it.
* `jobs.id` is the primary key: theorems about a table assume `UniqueIds`, and
  every operation keeps it.
-/

namespace QueueCtl

/-! ## Timestamps -/

/-- Time value of `0000-01-01T00:00:00.000Z`. -/
def yearZeroMs : Int := -62167219200000

/-- Time value of `+010000-01-01T00:00:00.000Z`, the first instant whose ISO
text has a sign and a six-digit year. -/
def yearTenThousandMs : Int := 253402300800000

/-- Largest magnitude of a valid `Date` time value (ECMAScript TimeClip). -/
def maxTimeValue : Int := 8640000000000000

/-- Calendar year (proleptic Gregorian, UTC) of a time value: the year field
that `toISOString` prints. -/
def yearOf (t : Int) : Int :=
  let z := t / 86400000 + 719468
  let era := z / 146097
  let doe := z - era * 146097
  let yoe := (doe - doe / 1460 + doe / 36524 - doe / 146096) / 365
  let doy := doe - (365 * yoe + yoe / 4 - yoe / 100)
  let mp := (5 * doy + 2) / 153
  yoe + era * 400 + (if mp < 10 then 0 else 1)

/-- Sort key of the text `toISOString` prints for time value `t`, under byte
comparison.  Years 0000 to 9999 print as four digits; later years print as
`+YYYYYY` and earlier ones as `-YYYYYY`, and the bytes order as
`+` < `-` < digits.  Inside the `-` class a larger magnitude of the year sorts
later, and inside one year the rest of the text is chronological. -/
def isoKey (t : Int) : Int × Int × Int :=
  if yearTenThousandMs ≤ t then (0, 0, t)
  else if t < yearZeroMs then (1, -(yearOf t), t)
  else (2, 0, t)

/-- Lexicographic order on sort keys. -/
def keyLe (x y : Int × Int × Int) : Prop :=
  x.1 < y.1 ∨ (x.1 = y.1 ∧ (x.2.1 < y.2.1 ∨ (x.2.1 = y.2.1 ∧ x.2.2 ≤ y.2.2)))

instance (x y : Int × Int × Int) : Decidable (keyLe x y) := by
  unfold keyLe; infer_instance

/-- SQLite `a <= b` on two timestamp columns (TEXT, BINARY collation). -/
def isoLe (a b : Int) : Bool := decide (keyLe (isoKey a) (isoKey b))

/-- A reading of the wall clock in the years 0000 to 9999, where the ISO text
has its fixed 24-character form. -/
def WallClock (t : Int) : Prop := yearZeroMs ≤ t ∧ t < yearTenThousandMs

instance (t : Int) : Decidable (WallClock t) := by
  unfold WallClock; infer_instance

/-! ## The store -/

/-- Values of column `state`. -/
inductive JobState where
  | pending
  | processing
  | completed
  | dead
  deriving DecidableEq, Repr

/-- A JavaScript value as far as `max_retries` is concerned: a number of the
payload (or the literal default `3`), or a string (a configuration value). -/
inductive JsVal where
  | num (n : Int)
  | str (s : String)
  deriving DecidableEq, Repr

/-- What the model keeps of column `max_retries` (INTEGER affinity).  `int n`:
SQLite stores the integer `n` and the driver reads back the number `n`.
`other raw`: the value bound was `raw` and the model does not follow it
further; SQLite may store an integer for it (it does for `3.0`, ` 4`, `1e1`),
a real, or the text itself. -/
inductive ColVal where
  | int (n : Int)
  | other (raw : String)
  deriving DecidableEq, Repr

/-- One row of table `jobs` (`initDb`, db.js 30-41). -/
structure Job where
  id : String
  command : String
  state : JobState
  attempts : Nat
  max_retries : ColVal
  created_at : Int
  updated_at : Int
  run_at : Int
  error : Option String
  worker_id : Option String
  deriving DecidableEq, Repr

/-- The database file: table `jobs` in rowid order and table `config`. -/
structure Db where
  jobs : List Job
  config : List (String × String)
  deriving DecidableEq, Repr

/-- The PRIMARY KEY constraint of `jobs.id`. -/
def UniqueIds (db : Db) : Prop := (db.jobs.map (fun j => j.id)).Nodup

instance (db : Db) : Decidable (UniqueIds db) := by
  unfold UniqueIds; infer_instance

/-! ## config.js -/

/-- `INSERT OR REPLACE INTO config (key, value) VALUES (?, ?)`. -/
def setConfig (db : Db) (key value : String) : Db :=
  { db with config := (db.config.filter (fun kv => kv.1 ≠ key)) ++ [(key, value)] }

/-- `SELECT value FROM config WHERE key = ?`; `none` stands for the caller's
default. -/
def getConfig (db : Db) (key : String) : Option String :=
  (db.config.find? (fun kv => kv.1 = key)).map (fun kv => kv.2)

/-- `INSERT OR IGNORE INTO config (key, value) VALUES (?, ?)`. -/
def insertOrIgnoreConfig (db : Db) (key value : String) : Db :=
  if db.config.any (fun kv => kv.1 = key) then db
  else { db with config := db.config ++ [(key, value)] }

/-- `initDb`: both tables exist afterwards and the two defaults are seeded. -/
def initDb (db : Db) : Db :=
  insertOrIgnoreConfig (insertOrIgnoreConfig db "max_retries" "3") "backoff_base" "2"

/-- The database file before anything was stored. -/
def emptyDb : Db := { jobs := [], config := [] }

/-! ## worker-process.js: fetchJob -/

/-- `WHERE state = 'pending' AND run_at <= ?`. -/
def eligible (now : Int) (j : Job) : Bool :=
  decide (j.state = JobState.pending) && isoLe j.run_at now

/-- `ORDER BY created_at ASC LIMIT 1`: the first row, in rowid order, whose
`created_at` no other row precedes. -/
def oldest : List Job → Option Job
  | [] => none
  | j :: js =>
    match oldest js with
    | none => some j
    | some m => if isoLe j.created_at m.created_at then some j else some m

/-- The subquery of `fetchJob`. -/
def selectNext (db : Db) (now : Int) : Option Job :=
  oldest (db.jobs.filter (eligible now))

/-- `SET state = 'processing', updated_at = ?, worker_id = ?`. -/
def claimRow (workerId : String) (now : Int) (j : Job) : Job :=
  { j with state := JobState.processing, updated_at := now, worker_id := some workerId }

/-- `fetchJob` (worker-process.js 44-73).  `isShuttingDown` is the module
flag, `storeError` says whether `db.get` rejected (the `catch` arm), `now` is
the clock read of line 48.  Returns the database afterwards and the value
handed to `mainLoop` (`none` for `null` and `undefined`). -/
def fetchJob (db : Db) (workerId : String) (now : Int)
    (isShuttingDown storeError : Bool) : Db × Option Job :=
  if isShuttingDown then (db, none)
  else if storeError then (db, none)
  else
    match selectNext db now with
    | none => (db, none)
    | some p =>
      let jobs := db.jobs.map (fun j => if j.id = p.id then claimRow workerId now j else j)
      ({ db with jobs := jobs }, jobs.find? (fun j => decide (j.id = p.id)))

/-! ## worker-process.js: processJob -/

/-- Errors a JavaScript engine raises by itself. -/
inductive JsError where
  | rangeError
  | referenceError
  deriving DecidableEq, Repr

/-- How `execPromise(job.command)` ended: it resolved, or it rejected with an
error carrying `message`. -/
inductive Outcome where
  | success
  | failure (message : String)
  deriving DecidableEq, Repr

/-- White space that `parseInt` skips: ECMAScript WhiteSpace (TAB, VT, FF,
ZWNBSP and the space separators) and LineTerminator (LF, CR, LS, PS). -/
def isWhiteSpace (c : Char) : Bool :=
  c.toNat = 32 || (9 ≤ c.toNat && c.toNat ≤ 13) || c.toNat = 160 || c.toNat = 5760 ||
  (8192 ≤ c.toNat && c.toNat ≤ 8202) || c.toNat = 8232 || c.toNat = 8233 ||
  c.toNat = 8239 || c.toNat = 8287 || c.toNat = 12288 || c.toNat = 65279

/-- Value of a decimal digit. -/
def digitValue (c : Char) : Option Nat :=
  if 48 ≤ c.toNat ∧ c.toNat ≤ 57 then some (c.toNat - 48) else none

/-- The longest run of decimal digits at the head of a text, read as a
number; `acc` is what was read so far (`none`: no digit yet). -/
def readDigits : List Char → Option Nat → Option Nat
  | [], acc => acc
  | c :: cs, acc =>
    match digitValue c with
    | none => acc
    | some d => readDigits cs (some (acc.getD 0 * 10 + d))

/-- ECMAScript `parseInt(s, 10)`; `none` is `NaN`. -/
def parseInt (s : String) : Option Int :=
  match s.toList.dropWhile isWhiteSpace with
  | '-' :: rest => (readDigits rest none).map (fun n => -(n : Int))
  | '+' :: rest => (readDigits rest none).map (fun n => (n : Int))
  | cs => (readDigits cs none).map (fun n => (n : Int))

/-- `new Date(x).toISOString()` for a number `x` (`none` is `NaN`): the time
value whose text is produced, or the RangeError raised for an invalid date. -/
def toISOString (x : Option Int) : Except JsError Int :=
  match x with
  | none => Except.error JsError.rangeError
  | some t =>
    if -maxTimeValue ≤ t ∧ t ≤ maxTimeValue then Except.ok t
    else Except.error JsError.rangeError

/-- JavaScript `newAttempts >= maxRetries` on what the driver read back from
the row.  For a row the model holds as `int m` two numbers are compared.  For
any other row the outcome is `geOther`, a parameter that stands for what
SQLite stored for the bound text and what JavaScript makes of it; the theorems
hold whatever it is. -/
def attemptsReached (geOther : Nat → String → Bool) (newAttempts : Nat) : ColVal → Bool
  | ColVal.int m => decide ((newAttempts : Int) ≥ m)
  | ColVal.other raw => geOther newAttempts raw

/-- `UPDATE jobs SET ... WHERE id = ?`. -/
def updateWhereId (db : Db) (id : String) (f : Job → Job) : Db :=
  { db with jobs := db.jobs.map (fun j => if j.id = id then f j else j) }

/-- What one call of `processJob` leaves behind: the database, the error with
which the returned promise rejected (if any), and module flag `isProcessing`. -/
structure ProcessRun where
  db : Db
  thrown : Option JsError
  isProcessing : Bool
  deriving DecidableEq, Repr

/-- `processJob(job)` (worker-process.js 75-130), up to line 124.  `job` is the
row `fetchJob` returned, `outcome` is how the command ended, `now` is the clock
read of line 79 (before the command runs) and `now2` the `Date.now()` of
line 115. -/
def processJob (geOther : Nat → String → Bool) (db : Db) (job : Job) (outcome : Outcome)
    (now now2 : Int) : ProcessRun :=
  match outcome with
  | Outcome.success =>
    { db := updateWhereId db job.id (fun j =>
        { j with state := JobState.completed, updated_at := now, error := none }),
      thrown := none, isProcessing := false }
  | Outcome.failure message =>
    let newAttempts := job.attempts + 1
    if attemptsReached geOther newAttempts job.max_retries then
      { db := updateWhereId db job.id (fun j =>
          { j with state := JobState.dead, updated_at := now, attempts := newAttempts,
                   error := some message }),
        thrown := none, isProcessing := false }
    else
      let backoffBase := parseInt ((getConfig db "backoff_base").getD "2")
      let delayInSeconds := backoffBase.map (fun b => b ^ newAttempts)
      match toISOString (delayInSeconds.map (fun d => now2 + d * 1000)) with
      | Except.error e => { db := db, thrown := some e, isProcessing := true }
      | Except.ok run_at =>
        { db := updateWhereId db job.id (fun j =>
            { j with state := JobState.pending, updated_at := now, attempts := newAttempts,
                     run_at := run_at, error := some message }),
          thrown := none, isProcessing := false }

/-! ## status.js: retryDlqJob -/

/-- The two lines `retryDlqJob` can print. -/
inductive DlqReport where
  | requeued (jobId : String)
  | notFound (jobId : String)
  deriving DecidableEq, Repr

/-- `retryDlqJob(jobId)` (status.js 56-72); `now` is the clock read of line 58. -/
def retryDlqJob (db : Db) (jobId : String) (now : Int) : Db × DlqReport :=
  let hit := fun (j : Job) => decide (j.id = jobId) && decide (j.state = JobState.dead)
  let changes := (db.jobs.filter hit).length
  let jobs := db.jobs.map (fun j =>
    if hit j then
      { j with state := JobState.pending, attempts := 0, error := none, run_at := now,
               updated_at := now }
    else j)
  ({ db with jobs := jobs },
   if changes > 0 then DlqReport.requeued jobId else DlqReport.notFound jobId)

/-! ## queue.js: enqueueJob -/

/-- What `JSON.parse(jobJson)` gave, as far as `enqueueJob` looks: the three
properties it reads (`none`: the property is absent). -/
structure Payload where
  id : Option String
  command : Option String
  max_retries : Option JsVal
  deriving DecidableEq, Repr

/-- The message of the error caught in `enqueueJob` when it has no `code`. -/
inductive EnqueueError where
  | jsonSyntax
  | missingIdOrCommand
  deriving DecidableEq, Repr

/-- How one call of `enqueueJob` ends. -/
inductive EnqueueReport where
  /-- Line 34, `Job enqueued: ...`. -/
  | enqueued (id : String)
  /-- Line 39, `Error enqueuing job: ...`. -/
  | errorEnqueuing (e : EnqueueError)
  /-- Line 37, `Error: A job with ID "..." already exists.`. -/
  | alreadyExists (id : String)
  /-- The promise rejects with an error raised inside the `catch` block. -/
  | threw (e : JsError)
  deriving DecidableEq, Repr

/-- JavaScript truthiness of an optional string property. -/
def truthyStr : Option String → Bool
  | some s => decide (s ≠ "")
  | none => false

/-- JavaScript truthiness of `job.max_retries`. -/
def truthyVal : Option JsVal → Bool
  | some (JsVal.num n) => decide (n ≠ 0)
  | some (JsVal.str s) => decide (s ≠ "")
  | none => false

/-- A text made of an optional sign and decimal digits only, as an integer. -/
def integerLiteral (s : String) : Option Int :=
  let digits := fun (cs : List Char) =>
    if cs ≠ [] ∧ cs.all (fun c => (digitValue c).isSome) then readDigits cs none else none
  match s.toList with
  | '-' :: rest => (digits rest).map (fun n => -(n : Int))
  | '+' :: rest => (digits rest).map (fun n => (n : Int))
  | cs => (digits cs).map (fun n => (n : Int))

/-- What the model keeps of column `max_retries` after `$max_retries` was
bound to `v`.  A number of the payload, and a text that is a plain integer
literal (a sign and digits, nothing else), is stored by SQLite as that integer
and read back as that number when it is a safe integer (magnitude below 2^53):
`int n`.  Every other bound value is kept as `other` with the text bound. -/
def storedMaxRetries : JsVal → ColVal
  | JsVal.num n =>
    if -(2 ^ 53 : Int) < n ∧ n < 2 ^ 53 then ColVal.int n else ColVal.other (toString n)
  | JsVal.str s =>
    match integerLiteral s with
    | some n => if -(2 ^ 53 : Int) < n ∧ n < 2 ^ 53 then ColVal.int n else ColVal.other s
    | none => ColVal.other s

/-- `enqueueJob(jobJson)` (queue.js 4-42).  `parsed` is `none` when
`JSON.parse` raised; `now` is the clock read of line 12.

In the `catch` block the arm for `SQLITE_CONSTRAINT` evaluates `job.id`, but
`job` is declared with `const` inside the `try` block and no binding of that
name is in scope in the `catch` block, so evaluating the template raises
ReferenceError before anything is printed. -/
def enqueueJob (db : Db) (parsed : Option Payload) (now : Int) : Db × EnqueueReport :=
  match parsed with
  | none => (db, EnqueueReport.errorEnqueuing EnqueueError.jsonSyntax)
  | some job =>
    if !truthyStr job.id || !truthyStr job.command then
      (db, EnqueueReport.errorEnqueuing EnqueueError.missingIdOrCommand)
    else
      let id := job.id.getD ""
      let maxRetries : JsVal :=
        if truthyVal job.max_retries then job.max_retries.getD (JsVal.num 3)
        else match getConfig db "max_retries" with
          | some v => JsVal.str v
          | none => JsVal.num 3
      if db.jobs.any (fun j => decide (j.id = id)) then
        (db, EnqueueReport.threw JsError.referenceError)
      else
        ({ db with jobs := db.jobs ++ [
            { id := id, command := job.command.getD "", state := JobState.pending,
              attempts := 0, max_retries := storedMaxRetries maxRetries,
              created_at := now, updated_at := now, run_at := now,
              error := none, worker_id := none }] },
         EnqueueReport.enqueued id)

/-! ## A burst of claim calls -/

/-- A sequence of `fetchJob` calls, each one atomic step on the database, by
the given workers at the given clock readings, nothing else in between.
Returns the database afterwards and what each call returned, in call order. -/
def claimCalls (db : Db) : List (String × Int) → Db × List (Option Job)
  | [] => (db, [])
  | c :: rest =>
    let r := fetchJob db c.1 c.2 false false
    let rs := claimCalls r.1 rest
    (rs.1, r.2 :: rs.2)

/-- The ids of the rows a sequence of calls returned, one entry per call that
got a job. -/
def returnedIds (results : List (Option Job)) : List String :=
  results.filterMap (fun r => r.map (fun j => j.id))

/-! ## The system: one database, any number of workers -/

/-- The database together with the rows `fetchJob` has handed to some worker
and whose outcome `processJob` has not recorded yet.  `runs` is a ghost
counter: how often the command of the job with a given id was executed since
the job was enqueued or last replayed from the DLQ. -/
structure Sys where
  db : Db
  inflight : List Job
  runs : String → Nat

/-- The steps of the system. -/
inductive Action where
  /-- `queuectl enqueue`: `enqueueJob` on what `JSON.parse` gave. -/
  | enqueue (parsed : Option Payload) (now : Int)
  /-- `queuectl config:set`. -/
  | setConfig (key value : String)
  /-- One worker's `fetchJob`. -/
  | fetch (workerId : String) (now : Int)
  /-- The worker holding `job` runs its command and `processJob` records how
  it ended. -/
  | process (job : Job) (outcome : Outcome) (now now2 : Int)
  /-- `queuectl dlq:retry`. -/
  | retryDlq (jobId : String) (now : Int)
  deriving DecidableEq, Repr

/-- One step.  `process` is enabled only for a row some worker holds. -/
def step (geOther : Nat → String → Bool) (s : Sys) : Action → Sys
  | Action.enqueue parsed now =>
    let r := enqueueJob s.db parsed now
    { db := r.1, inflight := s.inflight,
      runs := match r.2 with
        | EnqueueReport.enqueued id => Function.update s.runs id 0
        | _ => s.runs }
  | Action.setConfig key value =>
    { db := setConfig s.db key value, inflight := s.inflight, runs := s.runs }
  | Action.fetch workerId now =>
    let r := fetchJob s.db workerId now false false
    { db := r.1, inflight := r.2.toList ++ s.inflight, runs := s.runs }
  | Action.process job outcome now now2 =>
    if job ∈ s.inflight then
      { db := (processJob geOther s.db job outcome now now2).db,
        inflight := s.inflight.erase job,
        runs := Function.update s.runs job.id (s.runs job.id + 1) }
    else s
  | Action.retryDlq jobId now =>
    let r := retryDlqJob s.db jobId now
    { db := r.1, inflight := s.inflight,
      runs := match r.2 with
        | DlqReport.requeued id => Function.update s.runs id 0
        | DlqReport.notFound _ => s.runs }

/-- The system after `initDb` on a fresh database file. -/
def initSys : Sys := { db := initDb emptyDb, inflight := [], runs := fun _ => 0 }

/-- The state a sequence of steps leads to. -/
def run (geOther : Nat → String → Bool) (s : Sys) : List Action → Sys
  | [] => s
  | a :: rest => run geOther (step geOther s a) rest

/-- What the retry budget of a row says about it, given the rows in flight
and the execution counters.  Let `m` be an integer from which on the test of
`processJob`, `n >= max_retries`, is true, and `cap = max m 1`: a row that can
still be executed has `attempts + 1 <= cap` and as many executions as attempts
(one more when its worker is gone), a completed row has one execution more
than attempts, a dead row as many. -/
def JobOk (ge : Nat → String → Bool) (inflight : List Job) (runs : String → Nat)
    (j : Job) : Prop :=
  ∀ m : Int, (∀ n : Nat, m ≤ (n : Int) → attemptsReached ge n j.max_retries = true) →
    match j.state with
    | JobState.pending => runs j.id = j.attempts ∧ (j.attempts : Int) + 1 ≤ max m 1
    | JobState.processing =>
      (j ∈ inflight → runs j.id = j.attempts) ∧ (j ∉ inflight → runs j.id = j.attempts + 1) ∧
        (j.attempts : Int) + 1 ≤ max m 1
    | JobState.completed => runs j.id = j.attempts + 1 ∧ (j.attempts : Int) + 1 ≤ max m 1
    | JobState.dead => runs j.id = j.attempts ∧ (j.attempts : Int) ≤ max m 1

/-- The invariant of the table and the rows in flight: ids are unique, a row
in flight is a row of the table in state `processing`, no row is in flight
twice. -/
def TableInv (jobs inflight : List Job) : Prop :=
  (jobs.map (fun j => j.id)).Nodup ∧
  (∀ r ∈ inflight, r ∈ jobs ∧ r.state = JobState.processing) ∧
  inflight.Nodup

/-- The invariant of the system. -/
def Inv (ge : Nat → String → Bool) (s : Sys) : Prop :=
  TableInv s.db.jobs s.inflight ∧ ∀ j ∈ s.db.jobs, JobOk ge s.inflight s.runs j

/-! ## One worker process -/

/-- Where the single thread of one worker process stands.  Apart from
`loopTop` these are the points where it waits for something outside
JavaScript, which is where a signal handler can run. -/
inductive Pc where
  /-- About to evaluate `if (isShuttingDown) break` (line 137). -/
  | loopTop
  /-- `fetchJob` awaits `db.get`; SQLite has not run the UPDATE yet.  `now` is
  the clock read of line 48. -/
  | claimIssued (now : Int)
  /-- SQLite ran the UPDATE and committed; the result is not yet delivered to
  `fetchJob`. -/
  | claimDone (result : Option Job)
  /-- `processJob` set `isProcessing` and awaits the command.  `now` is the
  clock read of line 79. -/
  | executing (job : Job) (now : Int)
  /-- `await sleep(2000)`. -/
  | sleeping
  /-- `cleanupAndExit` ran: `process.exit(0)`. -/
  | exited
  /-- The promise of `mainLoop` rejected. -/
  | crashed
  deriving DecidableEq, Repr

/-- One worker process and the database.  `claimed` is a ghost list: the ids
of the rows the UPDATE of this worker's `fetchJob` calls turned to
`processing`. -/
structure World where
  db : Db
  workerId : String
  pc : Pc
  isShuttingDown : Bool
  isProcessing : Bool
  claimed : List String
  deriving DecidableEq, Repr

/-- What can happen next to one worker process. -/
inductive WEvent where
  /-- The loop-top check, then `fetchJob` up to issuing the UPDATE. -/
  | loopTop (now : Int)
  /-- SQLite runs the UPDATE of the claim. -/
  | storeRuns
  /-- `db.get` resolves, `fetchJob` returns, `mainLoop` goes on: `processJob`
  starts, or the poll sleep. -/
  | claimReturns (now : Int)
  /-- The command ends and `processJob` records the outcome and returns. -/
  | finish (outcome : Outcome) (now2 : Int)
  /-- The poll sleep is over. -/
  | wake
  /-- SIGTERM is delivered. -/
  | sigterm
  deriving DecidableEq, Repr

/-- One step of a worker process; an event that cannot happen where the
process stands changes nothing. -/
def wstep (geOther : Nat → String → Bool) (w : World) : WEvent → World
  | WEvent.loopTop now =>
    match w.pc with
    | Pc.loopTop =>
      if w.isShuttingDown then { w with pc := Pc.exited }
      else { w with pc := Pc.claimIssued now }
    | _ => w
  | WEvent.storeRuns =>
    match w.pc with
    | Pc.claimIssued now =>
      let r := fetchJob w.db w.workerId now false false
      { w with db := r.1, pc := Pc.claimDone r.2,
               claimed := (r.2.map (fun j => j.id)).toList ++ w.claimed }
    | _ => w
  | WEvent.claimReturns now =>
    match w.pc with
    | Pc.claimDone (some job) => { w with pc := Pc.executing job now, isProcessing := true }
    | Pc.claimDone none =>
      if w.isShuttingDown then { w with pc := Pc.exited } else { w with pc := Pc.sleeping }
    | _ => w
  | WEvent.finish outcome now2 =>
    match w.pc with
    | Pc.executing job now =>
      let r := processJob geOther w.db job outcome now now2
      match r.thrown with
      | some _ => { w with db := r.db, pc := Pc.crashed, isProcessing := r.isProcessing }
      | none =>
        { w with db := r.db, isProcessing := r.isProcessing,
                 pc := if w.isShuttingDown then Pc.exited else Pc.loopTop }
    | _ => w
  | WEvent.wake =>
    match w.pc with
    | Pc.sleeping => { w with pc := Pc.loopTop }
    | _ => w
  | WEvent.sigterm =>
    match w.pc with
    | Pc.exited => w
    | Pc.crashed => w
    | _ =>
      if w.isProcessing then { w with isShuttingDown := true }
      else { w with isShuttingDown := true, pc := Pc.exited }

/-- The world a sequence of events leads to. -/
def wrun (geOther : Nat → String → Bool) (w : World) : List WEvent → World
  | [] => w
  | e :: rest => wrun geOther (wstep geOther w e) rest

/-- A worker that has just finished `initDb` on the given database. -/
def startWorker (db : Db) (workerId : String) : World :=
  { db := initDb db, workerId := workerId, pc := Pc.loopTop, isShuttingDown := false,
    isProcessing := false, claimed := [] }

/-! ## Sample data -/

/-- A clock reading in November 2023. -/
def t₀ : Int := 1700000000000

/-- A claimed job that has not failed yet and may be tried three times. -/
def sampleJob : Job :=
  { id := "a", command := "false", state := JobState.processing, attempts := 0,
    max_retries := ColVal.int 3, created_at := t₀, updated_at := t₀ + 1000,
    run_at := t₀, error := none, worker_id := some "w1" }

/-- A database holding `sampleJob` with the given `backoff_base`. -/
def sampleDb (backoffBase : String) : Db :=
  { jobs := [sampleJob], config := [("max_retries", "3"), ("backoff_base", backoffBase)] }

/-- A well-formed payload with the id of `sampleJob`. -/
def samplePayload : Payload :=
  { id := some "a", command := some "true", max_retries := none }

/-- The row of job `a` as `fetchJob` returns it when the job was enqueued
while the default `max_retries` was `0`. -/
def zeroBudgetRow : Job :=
  { id := "a", command := "false", state := JobState.processing, attempts := 0,
    max_retries := ColVal.int 0, created_at := t₀, updated_at := t₀ + 1000,
    run_at := t₀, error := none, worker_id := some "w1" }

/-- `config:set max_retries 0`, enqueue job `a` without a `max_retries` of its
own, claim it, and its command fails. -/
def zeroBudgetActions : List Action :=
  [Action.setConfig "max_retries" "0",
   Action.enqueue (some { id := some "a", command := some "false", max_retries := none }) t₀,
   Action.fetch "w1" (t₀ + 1000),
   Action.process zeroBudgetRow (Outcome.failure "exit 1") (t₀ + 1000) (t₀ + 1500)]

/-- A database holding one job, pending and due. -/
def oneDueJobDb : Db :=
  { jobs := [{ sampleJob with state := JobState.pending, updated_at := t₀,
                              worker_id := none }],
    config := [("max_retries", "3"), ("backoff_base", "2")] }

/-- The row of `oneDueJobDb`. -/
def dueJob : Job :=
  { sampleJob with state := JobState.pending, updated_at := t₀, worker_id := none }

/-- Job `a` after its only permitted execution failed (`zeroBudgetActions`). -/
def zeroBudgetDead : Job :=
  { zeroBudgetRow with state := JobState.dead, attempts := 1, error := some "exit 1" }

/-- Job `a` in the dead-letter queue after three failures. -/
def deadJob : Job :=
  { sampleJob with state := JobState.dead, attempts := 3, error := some "exit 1" }

/-- A database holding `deadJob`. -/
def deadJobDb : Db :=
  { jobs := [deadJob], config := [("max_retries", "3"), ("backoff_base", "2")] }

/-- `config:set backoff_base 300000000000`, enqueue job `a`, claim it at
`t₀ + 1000`, and its command fails; the failure is handled at `t₀ + 1500`. -/
def farFutureActions : List Action :=
  [Action.setConfig "backoff_base" "300000000000",
   Action.enqueue (some { id := some "a", command := some "false", max_retries := none }) t₀,
   Action.fetch "w1" (t₀ + 1000),
   Action.process sampleJob (Outcome.failure "exit 1") (t₀ + 1000) (t₀ + 1500)]

/-- A job that failed once and waits out its backoff: created before `t₀`,
pending, due two seconds after `t₀`. -/
def backoffJob : Job :=
  { id := "x", command := "false", state := JobState.pending, attempts := 1,
    max_retries := ColVal.int 3, created_at := t₀ - 5000, updated_at := t₀ - 1000,
    run_at := t₀ + 2000, error := some "exit 1", worker_id := some "w0" }

/-- A database holding `backoffJob` and `dueJob`. -/
def backoffAndDueDb : Db :=
  { jobs := [backoffJob, dueJob], config := [("max_retries", "3"), ("backoff_base", "2")] }

/-- A pending job, older than `dueJob`, whose `run_at` is the one
`farFutureActions` leave behind, an instant in the year 11530. -/
def farFutureJob : Job :=
  { backoffJob with run_at := (t₀ + 1500) + 300000000000 ^ 1 * 1000 }

/-- A database holding `farFutureJob` and `dueJob`. -/
def farFutureAndDueDb : Db :=
  { jobs := [farFutureJob, dueJob], config := [("max_retries", "3"), ("backoff_base", "2")] }

/-- JavaScript `n >= maxRetries` when the row holds the text `abc`: the text is
no number, the comparison with NaN is false. -/
def geNotANumber : Nat → String → Bool := fun _ _ => false

/-- Job `a`, enqueued at `t₀` while the default `max_retries` was the text
`abc`, as `fetchJob` returns it at `now` after `attempts` failures, the last
one rescheduling it to `runAt`. -/
def notANumberRow (attempts : Nat) (now runAt : Int) : Job :=
  { id := "a", command := "false", state := JobState.processing, attempts := attempts,
    max_retries := ColVal.other "abc", created_at := t₀, updated_at := now, run_at := runAt,
    error := if attempts = 0 then none else some "exit 1", worker_id := some "w1" }

/-- `config:set max_retries abc`, enqueue job `a`, and four rounds of claim and
failed execution, each claim one minute after the one before. -/
def notANumberActions : List Action :=
  [Action.setConfig "max_retries" "abc",
   Action.enqueue (some { id := some "a", command := some "false", max_retries := none }) t₀,
   Action.fetch "w1" (t₀ + 60000),
   Action.process (notANumberRow 0 (t₀ + 60000) t₀) (Outcome.failure "exit 1")
     (t₀ + 60000) (t₀ + 60500),
   Action.fetch "w1" (t₀ + 120000),
   Action.process (notANumberRow 1 (t₀ + 120000) (t₀ + 62500)) (Outcome.failure "exit 1")
     (t₀ + 120000) (t₀ + 120500),
   Action.fetch "w1" (t₀ + 180000),
   Action.process (notANumberRow 2 (t₀ + 180000) (t₀ + 124500)) (Outcome.failure "exit 1")
     (t₀ + 180000) (t₀ + 180500),
   Action.fetch "w1" (t₀ + 240000),
   Action.process (notANumberRow 3 (t₀ + 240000) (t₀ + 188500)) (Outcome.failure "exit 1")
     (t₀ + 240000) (t₀ + 240500)]

/-- Comparison used in the samples for a `max_retries` the model holds as
`other`; no sample has such a row, so it is never consulted. -/
def sampleGe : Nat → String → Bool := fun _ _ => false

/-! ## Facts about the timestamp order -/

theorem keyLe_total (x y : Int × Int × Int) : keyLe x y ∨ keyLe y x := by
  unfold keyLe; omega

theorem keyLe_trans {x y z : Int × Int × Int} (h₁ : keyLe x y) (h₂ : keyLe y z) :
    keyLe x z := by
  unfold keyLe at *; omega

theorem isoLe_total (a b : Int) : isoLe a b = true ∨ isoLe b a = true := by
  unfold isoLe
  rcases keyLe_total (isoKey a) (isoKey b) with h | h
  · exact Or.inl (decide_eq_true h)
  · exact Or.inr (decide_eq_true h)

theorem isoLe_trans {a b c : Int} (h₁ : isoLe a b = true) (h₂ : isoLe b c = true) :
    isoLe a c = true := by
  unfold isoLe at *
  exact decide_eq_true (keyLe_trans (of_decide_eq_true h₁) (of_decide_eq_true h₂))

theorem isoLe_refl (a : Int) : isoLe a a = true := by
  rcases isoLe_total a a with h | h <;> exact h

/-- Between two wall-clock readings the text order is the chronological one. -/
theorem isoLe_wallClock {a b : Int} (ha : WallClock a) (hb : WallClock b) :
    isoLe a b = true ↔ a ≤ b := by
  unfold WallClock at ha hb
  have ka : isoKey a = (2, 0, a) := by
    unfold isoKey; rw [if_neg (by omega), if_neg (by omega)]
  have kb : isoKey b = (2, 0, b) := by
    unfold isoKey; rw [if_neg (by omega), if_neg (by omega)]
  unfold isoLe
  rw [ka, kb, decide_eq_true_iff]
  unfold keyLe
  simp

/-! ## Facts about the claim query -/

theorem oldest_cons_none {j : Job} {js : List Job} (h : oldest js = none) :
    oldest (j :: js) = some j := by
  simp only [oldest, h]

theorem oldest_cons_some {j m : Job} {js : List Job} (h : oldest js = some m) :
    oldest (j :: js) = if isoLe j.created_at m.created_at = true then some j else some m := by
  simp only [oldest, h]

theorem oldest_eq_none {l : List Job} : oldest l = none ↔ l = [] := by
  cases l with
  | nil => simp [oldest]
  | cons j js =>
    cases h : oldest js with
    | none => simp [oldest_cons_none h]
    | some m =>
      rw [oldest_cons_some h]
      by_cases c : isoLe j.created_at m.created_at = true
      · simp [if_pos c]
      · simp [if_neg c]

theorem oldest_mem {l : List Job} {m : Job} (h : oldest l = some m) : m ∈ l := by
  induction l generalizing m with
  | nil => simp [oldest] at h
  | cons j js ih =>
    cases hjs : oldest js with
    | none =>
      rw [oldest_cons_none hjs] at h
      simp only [Option.some.injEq] at h
      simp [h]
    | some m₀ =>
      rw [oldest_cons_some hjs] at h
      by_cases c : isoLe j.created_at m₀.created_at = true
      · rw [if_pos c] at h
        simp only [Option.some.injEq] at h
        simp [h]
      · rw [if_neg c] at h
        simp only [Option.some.injEq] at h
        subst h
        exact List.mem_cons_of_mem _ (ih hjs)

theorem oldest_le {l : List Job} {m : Job} (h : oldest l = some m) :
    ∀ j ∈ l, isoLe m.created_at j.created_at = true := by
  induction l generalizing m with
  | nil => simp [oldest] at h
  | cons a js ih =>
    intro j hj
    cases hjs : oldest js with
    | none =>
      rw [oldest_cons_none hjs] at h
      simp only [Option.some.injEq] at h
      subst h
      have : js = [] := oldest_eq_none.mp hjs
      subst this
      simp only [List.mem_singleton] at hj
      subst hj
      exact isoLe_refl _
    | some m₀ =>
      rw [oldest_cons_some hjs] at h
      have ih₀ := ih hjs
      by_cases c : isoLe a.created_at m₀.created_at = true
      · rw [if_pos c] at h
        simp only [Option.some.injEq] at h
        subst h
        rcases List.mem_cons.mp hj with e | hmem
        · subst e; exact isoLe_refl _
        · exact isoLe_trans c (ih₀ j hmem)
      · rw [if_neg c] at h
        simp only [Option.some.injEq] at h
        subst h
        rcases List.mem_cons.mp hj with e | hmem
        · subst e
          rcases isoLe_total j.created_at m₀.created_at with t | t
          · exact absurd t c
          · exact t
        · exact ih₀ j hmem

/-- Two rows of one table with the same id are the same row. -/
theorem eq_of_id_eq {jobs : List Job} (hu : (jobs.map (fun j => j.id)).Nodup)
    {a b : Job} (ha : a ∈ jobs) (hb : b ∈ jobs) (h : a.id = b.id) : a = b :=
  List.inj_on_of_nodup_map hu ha hb h

/-- Rewriting the rows with one id touches exactly one row of a table with
a primary key. -/
theorem map_update_id {jobs : List Job} (hu : (jobs.map (fun j => j.id)).Nodup)
    {p : Job} (hp : p ∈ jobs) (f : Job → Job) :
    jobs.map (fun j => if j.id = p.id then f j else j)
      = jobs.map (fun j => if j = p then f p else j) := by
  apply List.map_congr_left
  intro j hj
  by_cases h : j.id = p.id
  · have e : j = p := eq_of_id_eq hu hj hp h
    subst e
    simp
  · have ne : j ≠ p := fun e => h (by rw [e])
    rw [if_neg h, if_neg ne]

/-- The row `RETURNING *` hands back is the rewritten row. -/
theorem find_updated {jobs : List Job} (hu : (jobs.map (fun j => j.id)).Nodup)
    {p : Job} (hp : p ∈ jobs) (f : Job → Job) (hf : ∀ j, (f j).id = j.id) :
    (jobs.map (fun j => if j.id = p.id then f j else j)).find?
        (fun j => decide (j.id = p.id)) = some (f p) := by
  induction jobs with
  | nil => simp at hp
  | cons a js ih =>
    rw [List.map_cons] at hu ⊢
    by_cases h : a.id = p.id
    · have hu' : ((a :: js).map (fun j => j.id)).Nodup := by simpa using hu
      have e : a = p := eq_of_id_eq hu' (List.mem_cons_self _ _) hp h
      subst e
      rw [if_pos rfl, List.find?_cons_of_pos]
      simp [hf]
    · rw [if_neg h, List.find?_cons_of_neg _ (by simpa using h)]
      have hp' : p ∈ js := by
        rcases List.mem_cons.mp hp with e | m
        · exact absurd (by rw [e]) h
        · exact m
      exact ih (List.nodup_cons.mp hu).2 hp'

/-- `fetchJob` in the order in which SQLite compares the ISO texts (`isoLe`),
not shutting down and with the store answering: when no row
is pending with `run_at <= now` it returns no job and the database is the same;
otherwise there is a row `p`, pending with `run_at <= now` and with no eligible
row created before it, such that the database afterwards is the old one with
`p` alone replaced by `p` with state `processing`, `updated_at = now` and
`worker_id` the caller, and that replaced row is what the caller gets. -/
theorem fetchJob_contract (db : Db) (workerId : String) (now : Int) (hu : UniqueIds db) :
    ((∀ j ∈ db.jobs, ¬ (j.state = JobState.pending ∧ isoLe j.run_at now = true)) →
        fetchJob db workerId now false false = (db, none)) ∧
    ((∃ j ∈ db.jobs, j.state = JobState.pending ∧ isoLe j.run_at now = true) →
        ∃ p r, p ∈ db.jobs ∧ p.state = JobState.pending ∧ isoLe p.run_at now = true ∧
          (∀ j ∈ db.jobs, j.state = JobState.pending → isoLe j.run_at now = true →
            isoLe p.created_at j.created_at = true) ∧
          r = { p with state := JobState.processing, updated_at := now,
                       worker_id := some workerId } ∧
          fetchJob db workerId now false false
            = ({ jobs := db.jobs.map (fun j => if j = p then r else j),
                 config := db.config }, some r)) := by
  have elig : ∀ j : Job, eligible now j = true ↔
      (j.state = JobState.pending ∧ isoLe j.run_at now = true) := by
    intro j; simp [eligible]
  constructor
  · intro hnone
    have hfil : db.jobs.filter (eligible now) = [] := by
      rw [List.filter_eq_nil_iff]
      intro j hj hel
      exact hnone j hj ((elig j).mp hel)
    have hsel : selectNext db now = none := by
      unfold selectNext; rw [hfil]; rfl
    simp [fetchJob, hsel]
  · rintro ⟨j₀, hj₀, hel₀⟩
    have hne : db.jobs.filter (eligible now) ≠ [] := by
      intro e
      have : j₀ ∈ db.jobs.filter (eligible now) :=
        List.mem_filter.mpr ⟨hj₀, (elig j₀).mpr hel₀⟩
      rw [e] at this
      exact absurd this (List.not_mem_nil _)
    cases hsel : selectNext db now with
    | none => exact absurd (oldest_eq_none.mp hsel) hne
    | some p =>
      have hpf : p ∈ db.jobs.filter (eligible now) := oldest_mem hsel
      have hp : p ∈ db.jobs := (List.mem_filter.mp hpf).1
      have hpe := (elig p).mp (List.mem_filter.mp hpf).2
      refine ⟨p, claimRow workerId now p, hp, hpe.1, hpe.2, ?_, rfl, ?_⟩
      · intro j hj hs hr
        exact oldest_le hsel j (List.mem_filter.mpr ⟨hj, (elig j).mpr ⟨hs, hr⟩⟩)
      · simp only [fetchJob, hsel, Bool.false_eq_true, if_false]
        rw [find_updated hu hp (claimRow workerId now) (fun _ => rfl),
          map_update_id hu hp (claimRow workerId now)]

/-! ## Replacing one row -/

theorem replace_ids {l : List Job} {p r : Job} (h : r.id = p.id) :
    (l.map (fun j => if j = p then r else j)).map (fun j => j.id) = l.map (fun j => j.id) := by
  rw [List.map_map]
  apply List.map_congr_left
  intro j _
  by_cases e : j = p
  · simp [e, h]
  · simp [e]

theorem mem_replace {l : List Job} {p r x : Job}
    (h : x ∈ l.map (fun j => if j = p then r else j)) : x = r ∨ (x ∈ l ∧ x ≠ p) := by
  obtain ⟨j, hj, e⟩ := List.mem_map.mp h
  by_cases c : j = p
  · rw [if_pos c] at e; exact Or.inl e.symm
  · rw [if_neg c] at e; subst e; exact Or.inr ⟨hj, c⟩

theorem mem_replace_of_ne {l : List Job} {p r x : Job} (hx : x ∈ l) (hne : x ≠ p) :
    x ∈ l.map (fun j => if j = p then r else j) :=
  List.mem_map.mpr ⟨x, hx, by rw [if_neg hne]⟩

theorem mem_replace_self {l : List Job} {p r : Job} (hp : p ∈ l) :
    r ∈ l.map (fun j => if j = p then r else j) :=
  List.mem_map.mpr ⟨p, hp, by rw [if_pos rfl]⟩

theorem replace_of_not_mem {l : List Job} {p r : Job} (hp : p ∉ l) :
    l.map (fun j => if j = p then r else j) = l := by
  conv_rhs => rw [← List.map_id l]
  apply List.map_congr_left
  intro j hj
  have : j ≠ p := fun e => hp (e ▸ hj)
  simp [this]

theorem countP_replace (q : Job → Bool) {p r : Job} (hr : q r = false) (hp : q p = true) :
    ∀ {l : List Job}, l.Nodup →
      (l.map (fun j => if j = p then r else j)).countP q + (if p ∈ l then 1 else 0)
        = l.countP q
  | [], _ => by simp
  | a :: l, hnd => by
    have hnd' := List.nodup_cons.mp hnd
    by_cases e : a = p
    · subst e
      rw [List.map_cons, if_pos rfl, replace_of_not_mem hnd'.1, List.countP_cons_of_neg _ _ (by simp [hr]),
        List.countP_cons_of_pos _ _ hp, if_pos (List.mem_cons_self _ _)]
    · have ih := countP_replace q hr hp hnd'.2
      rw [List.map_cons, if_neg e]
      have hmem : (p ∈ a :: l) ↔ p ∈ l := by
        simp [List.mem_cons, Ne.symm e]
      by_cases qa : q a = true
      · rw [List.countP_cons_of_pos _ _ qa, List.countP_cons_of_pos _ _ qa]
        simp only [hmem]
        omega
      · rw [List.countP_cons_of_neg _ _ qa, List.countP_cons_of_neg _ _ qa]
        simp only [hmem]
        omega

theorem nodup_of_uniqueIds {db : Db} (hu : UniqueIds db) : db.jobs.Nodup :=
  List.Nodup.of_map _ hu

/-! ## The two ways a claim can end -/

theorem eligible_iff (t : Int) (j : Job) :
    eligible t j = true ↔ (j.state = JobState.pending ∧ isoLe j.run_at t = true) := by
  simp [eligible]

theorem claimRow_not_eligible (w : String) (t t' : Int) (j : Job) :
    eligible t' (claimRow w t j) = false := by
  simp [eligible, claimRow]

theorem fetchJob_cases (db : Db) (w : String) (t : Int) (hu : UniqueIds db) :
    ((∀ j ∈ db.jobs, eligible t j = false) ∧ fetchJob db w t false false = (db, none)) ∨
    (∃ p ∈ db.jobs, eligible t p = true ∧
      (∀ j ∈ db.jobs, eligible t j = true → isoLe p.created_at j.created_at = true) ∧
      fetchJob db w t false false
        = ({ jobs := db.jobs.map (fun j => if j = p then claimRow w t p else j),
             config := db.config }, some (claimRow w t p))) := by
  cases hsel : selectNext db t with
  | none =>
    left
    have hfil : db.jobs.filter (eligible t) = [] := oldest_eq_none.mp hsel
    refine ⟨?_, by simp [fetchJob, hsel]⟩
    intro j hj
    by_contra c
    have : j ∈ db.jobs.filter (eligible t) := List.mem_filter.mpr ⟨hj, by simpa using c⟩
    rw [hfil] at this
    exact absurd this (List.not_mem_nil _)
  | some p =>
    right
    have hpf : p ∈ db.jobs.filter (eligible t) := oldest_mem hsel
    have hp : p ∈ db.jobs := (List.mem_filter.mp hpf).1
    refine ⟨p, hp, (List.mem_filter.mp hpf).2, ?_, ?_⟩
    · intro j hj he
      exact oldest_le hsel j (List.mem_filter.mpr ⟨hj, he⟩)
    · simp only [fetchJob, hsel, Bool.false_eq_true, if_false]
      rw [find_updated hu hp (claimRow w t) (fun _ => rfl),
        map_update_id hu hp (claimRow w t)]

theorem uniqueIds_replace {db : Db} (p r : Job) (hu : UniqueIds db) (h : r.id = p.id) :
    UniqueIds { jobs := db.jobs.map (fun j => if j = p then r else j), config := db.config } := by
  unfold UniqueIds at *
  rw [replace_ids h]
  exact hu

theorem fetchJob_uniqueIds (db : Db) (w : String) (t : Int) (hu : UniqueIds db) :
    UniqueIds (fetchJob db w t false false).1 := by
  rcases fetchJob_cases db w t hu with ⟨_, h⟩ | ⟨p, _, _, _, h⟩
  · rw [h]; exact hu
  · rw [h]; exact uniqueIds_replace p (claimRow w t p) hu rfl

/-! ## Sequences of claim calls -/

theorem claimCalls_cons (db : Db) (c : String × Int) (rest : List (String × Int)) :
    claimCalls db (c :: rest)
      = ((claimCalls (fetchJob db c.1 c.2 false false).1 rest).1,
         (fetchJob db c.1 c.2 false false).2
           :: (claimCalls (fetchJob db c.1 c.2 false false).1 rest).2) := rfl

/-- Whatever a sequence of calls returns was pending when the sequence began. -/
theorem returned_was_pending : ∀ (calls : List (String × Int)) (db : Db), UniqueIds db →
    ∀ id ∈ returnedIds (claimCalls db calls).2,
      ∃ j ∈ db.jobs, j.id = id ∧ j.state = JobState.pending
  | [], _, _ => by
    intro id h
    simp [claimCalls, returnedIds] at h
  | c :: rest, db, hu => by
    intro id h
    rw [claimCalls_cons] at h
    have ih := returned_was_pending rest _ (fetchJob_uniqueIds db c.1 c.2 hu)
    rcases fetchJob_cases db c.1 c.2 hu with ⟨_, hf⟩ | ⟨p, hp, hel, _, hf⟩
    · rw [hf] at h ih
      simp only [returnedIds, List.filterMap_cons, Option.map_none'] at h
      exact ih id h
    · rw [hf] at h ih
      simp only [returnedIds, List.filterMap_cons, Option.map_some'] at h
      rcases List.mem_cons.mp h with e | h'
      · exact ⟨p, hp, by rw [e]; rfl, ((eligible_iff _ _).mp hel).1⟩
      · obtain ⟨j, hj, hid, hst⟩ := ih id h'
        rcases mem_replace hj with e | ⟨hjm, _⟩
        · rw [e] at hst; simp [claimRow] at hst
        · exact ⟨j, hjm, hid, hst⟩

theorem returned_nodup : ∀ (calls : List (String × Int)) (db : Db), UniqueIds db →
    (returnedIds (claimCalls db calls).2).Nodup
  | [], _, _ => by simp [claimCalls, returnedIds]
  | c :: rest, db, hu => by
    rw [claimCalls_cons]
    have ih := returned_nodup rest _ (fetchJob_uniqueIds db c.1 c.2 hu)
    have hpend := returned_was_pending rest _ (fetchJob_uniqueIds db c.1 c.2 hu)
    rcases fetchJob_cases db c.1 c.2 hu with ⟨_, hf⟩ | ⟨p, hp, hel, _, hf⟩
    · rw [hf] at ih ⊢
      simpa only [returnedIds, List.filterMap_cons, Option.map_none'] using ih
    · rw [hf] at ih hpend ⊢
      simp only [returnedIds, List.filterMap_cons, Option.map_some']
      refine List.nodup_cons.mpr ⟨?_, ih⟩
      intro hin
      obtain ⟨j, hj, hid, hst⟩ := hpend _ hin
      rcases mem_replace hj with e | ⟨hjm, hne⟩
      · rw [e] at hst; simp [claimRow] at hst
      · exact hne (eq_of_id_eq hu hjm hp hid)

/-- Once there are at least as many calls as jobs due, every job due has been
returned. -/
theorem returned_all (now : Int) : ∀ (calls : List (String × Int)) (db : Db), UniqueIds db →
    (∀ c ∈ calls, ∀ j ∈ db.jobs, j.state = JobState.pending →
      isoLe j.run_at c.2 = isoLe j.run_at now) →
    (db.jobs.filter (eligible now)).length ≤ calls.length →
    ∀ j ∈ db.jobs, eligible now j = true → j.id ∈ returnedIds (claimCalls db calls).2
  | [], db, _, _, hlen => by
    intro j hj he
    have hm : j ∈ db.jobs.filter (eligible now) := List.mem_filter.mpr ⟨hj, he⟩
    have := List.length_pos_of_mem hm
    simp only [List.length_nil] at hlen
    omega
  | c :: rest, db, hu, hsame, hlen => by
    intro j hj he
    have hsame_c : ∀ x ∈ db.jobs, eligible c.2 x = eligible now x := by
      intro x hx
      by_cases hs : x.state = JobState.pending
      · simp [eligible, hs, hsame c (List.mem_cons_self _ _) x hx hs]
      · simp [eligible, hs]
    rw [claimCalls_cons]
    rcases fetchJob_cases db c.1 c.2 hu with ⟨hno, _⟩ | ⟨p, hp, hel, _, hf⟩
    · have := hno j hj
      rw [hsame_c j hj, he] at this
      exact absurd this (by simp)
    · rw [hf]
      simp only [returnedIds, List.filterMap_cons, Option.map_some']
      by_cases e : j = p
      · rw [e]; exact List.mem_cons_self _ _
      · apply List.mem_cons_of_mem
        have hu' := uniqueIds_replace p (claimRow c.1 c.2 p) hu rfl
        have hpnow : eligible now p = true := by rw [← hsame_c p hp]; exact hel
        have hcount := countP_replace (eligible now) (claimRow_not_eligible c.1 c.2 now p)
          hpnow (nodup_of_uniqueIds hu)
        rw [if_pos hp, List.countP_eq_length_filter, List.countP_eq_length_filter] at hcount
        apply returned_all now rest _ hu'
        · intro c' hc' x hx hs
          rcases mem_replace hx with e' | ⟨hxm, _⟩
          · rw [e'] at hs; simp [claimRow] at hs
          · exact hsame c' (List.mem_cons_of_mem _ hc') x hxm hs
        · simp only [List.length_cons] at hlen
          show (List.filter (eligible now)
            (db.jobs.map (fun j => if j = p then claimRow c.1 c.2 p else j))).length ≤ rest.length
          omega
        · exact mem_replace_of_ne hj e
        · exact he

/-- Claim calls in the order in which SQLite compares the ISO texts: no job is
returned twice; if the calls read clocks at which the same pending jobs pass
`run_at <= ?` as at `now`, and there are at least as many calls as such jobs,
every one of them has been returned by exactly one call. -/
theorem claimCalls_once_textOrder (db : Db) (now : Int) (calls : List (String × Int))
    (hu : UniqueIds db) :
    (returnedIds (claimCalls db calls).2).Nodup ∧
    ((∀ c ∈ calls, ∀ j ∈ db.jobs, j.state = JobState.pending →
        isoLe j.run_at c.2 = isoLe j.run_at now) →
      (db.jobs.filter (fun j =>
        decide (j.state = JobState.pending) && isoLe j.run_at now)).length ≤ calls.length →
      ∀ j ∈ db.jobs, j.state = JobState.pending → isoLe j.run_at now = true →
        (returnedIds (claimCalls db calls).2).count j.id = 1) := by
  refine ⟨returned_nodup calls db hu, ?_⟩
  intro hsame hlen j hj hs hr
  have hmem := returned_all now calls db hu hsame hlen j hj ((eligible_iff now j).mpr ⟨hs, hr⟩)
  exact List.count_eq_one_of_mem (returned_nodup calls db hu) hmem

/-! ## What each operation does to the table -/

theorem replace_self {l : List Job} {p : Job} :
    l.map (fun j => if j = p then p else j) = l := by
  conv_rhs => rw [← List.map_id l]
  apply List.map_congr_left
  intro j _
  by_cases e : j = p
  · simp [e]
  · simp [e]

theorem updateWhereId_replace {db : Db} (hu : UniqueIds db) {p : Job} (hp : p ∈ db.jobs)
    (f : Job → Job) :
    updateWhereId db p.id f
      = { jobs := db.jobs.map (fun j => if j = p then f p else j), config := db.config } := by
  unfold updateWhereId
  rw [map_update_id hu hp f]

theorem processJob_success (ge : Nat → String → Bool) {db : Db} (hu : UniqueIds db) {job : Job}
    (hj : job ∈ db.jobs) (now now2 : Int) :
    processJob ge db job Outcome.success now now2
      = { db := { jobs := db.jobs.map (fun j => if j = job then
                    { job with state := JobState.completed, updated_at := now, error := none }
                    else j),
                  config := db.config },
          thrown := none, isProcessing := false } := by
  simp only [processJob]
  rw [updateWhereId_replace hu hj]

theorem processJob_dead (ge : Nat → String → Bool) {db : Db} (hu : UniqueIds db) {job : Job}
    (hj : job ∈ db.jobs) (message : String) (now now2 : Int)
    (hr : attemptsReached ge (job.attempts + 1) job.max_retries = true) :
    processJob ge db job (Outcome.failure message) now now2
      = { db := { jobs := db.jobs.map (fun j => if j = job then
                    { job with state := JobState.dead, updated_at := now,
                               attempts := job.attempts + 1, error := some message }
                    else j),
                  config := db.config },
          thrown := none, isProcessing := false } := by
  simp only [processJob, hr, if_true]
  rw [updateWhereId_replace hu hj]

theorem processJob_retry (ge : Nat → String → Bool) {db : Db} (hu : UniqueIds db) {job : Job}
    (hj : job ∈ db.jobs) (message : String) (now now2 : Int)
    (hr : attemptsReached ge (job.attempts + 1) job.max_retries = false) {t : Int}
    (ht : toISOString ((parseInt ((getConfig db "backoff_base").getD "2")).map
            (fun b => now2 + b ^ (job.attempts + 1) * 1000)) = Except.ok t) :
    processJob ge db job (Outcome.failure message) now now2
      = { db := { jobs := db.jobs.map (fun j => if j = job then
                    { job with state := JobState.pending, updated_at := now,
                               attempts := job.attempts + 1, run_at := t,
                               error := some message }
                    else j),
                  config := db.config },
          thrown := none, isProcessing := false } := by
  simp only [processJob, hr, Bool.false_eq_true, if_false, Option.map_map]
  have : ((fun d => now2 + d * 1000) ∘ fun b => b ^ (job.attempts + 1))
      = (fun b : Int => now2 + b ^ (job.attempts + 1) * 1000) := rfl
  rw [this, ht]
  simp only
  rw [updateWhereId_replace hu hj]

theorem processJob_throw (ge : Nat → String → Bool) (db : Db) (job : Job)
    (message : String) (now now2 : Int)
    (hr : attemptsReached ge (job.attempts + 1) job.max_retries = false) {e : JsError}
    (ht : toISOString ((parseInt ((getConfig db "backoff_base").getD "2")).map
            (fun b => now2 + b ^ (job.attempts + 1) * 1000)) = Except.error e) :
    processJob ge db job (Outcome.failure message) now now2
      = { db := db, thrown := some e, isProcessing := true } := by
  simp only [processJob, hr, Bool.false_eq_true, if_false, Option.map_map]
  have : ((fun d => now2 + d * 1000) ∘ fun b => b ^ (job.attempts + 1))
      = (fun b : Int => now2 + b ^ (job.attempts + 1) * 1000) := rfl
  rw [this, ht]

theorem retryDlqJob_hit {db : Db} (hu : UniqueIds db) (jobId : String) (now : Int) {d : Job}
    (hd : d ∈ db.jobs) (hid : d.id = jobId) (hdead : d.state = JobState.dead) :
    retryDlqJob db jobId now
      = ({ jobs := db.jobs.map (fun j => if j = d then
              { d with state := JobState.pending, attempts := 0, error := none,
                       run_at := now, updated_at := now } else j),
           config := db.config }, DlqReport.requeued jobId) := by
  have hmap : db.jobs.map (fun j =>
      if (decide (j.id = jobId) && decide (j.state = JobState.dead)) = true then
        { j with state := JobState.pending, attempts := 0, error := none, run_at := now,
                 updated_at := now }
      else j)
      = db.jobs.map (fun j => if j = d then
          { d with state := JobState.pending, attempts := 0, error := none, run_at := now,
                   updated_at := now } else j) := by
    apply List.map_congr_left
    intro j hj
    by_cases h : j = d
    · subst h; simp [hid, hdead]
    · have hne : j.id ≠ jobId := fun e => h (eq_of_id_eq hu hj hd (by rw [e, hid]))
      simp [h, hne]
  have hpos : 0 < (db.jobs.filter (fun j =>
      decide (j.id = jobId) && decide (j.state = JobState.dead))).length := by
    have hdm : d ∈ db.jobs.filter (fun j =>
        decide (j.id = jobId) && decide (j.state = JobState.dead)) :=
      List.mem_filter.mpr ⟨hd, by simp [hid, hdead]⟩
    exact List.length_pos_of_mem hdm
  simp only [retryDlqJob]
  rw [hmap, if_pos (by simpa using hpos)]

theorem retryDlqJob_miss (db : Db) (jobId : String) (now : Int)
    (hnone : ∀ j ∈ db.jobs, ¬ (j.id = jobId ∧ j.state = JobState.dead)) :
    retryDlqJob db jobId now = (db, DlqReport.notFound jobId) := by
  have hmap : db.jobs.map (fun j =>
      if (decide (j.id = jobId) && decide (j.state = JobState.dead)) = true then
        { j with state := JobState.pending, attempts := 0, error := none, run_at := now,
                 updated_at := now }
      else j) = db.jobs := by
    conv_rhs => rw [← List.map_id db.jobs]
    apply List.map_congr_left
    intro j hj
    have := hnone j hj
    by_cases h1 : j.id = jobId
    · have h2 : j.state ≠ JobState.dead := fun e => this ⟨h1, e⟩
      simp [h1, h2]
    · simp [h1]
  have hfil : db.jobs.filter (fun j =>
      decide (j.id = jobId) && decide (j.state = JobState.dead)) = [] := by
    rw [List.filter_eq_nil_iff]
    intro j hj hh
    simp only [Bool.and_eq_true, decide_eq_true_eq] at hh
    exact hnone j hj hh
  simp only [retryDlqJob]
  rw [hmap, hfil]
  rfl

theorem enqueueJob_cases (db : Db) (parsed : Option Payload) (now : Int) :
    (∃ rep, enqueueJob db parsed now = (db, rep) ∧ ∀ id, rep ≠ EnqueueReport.enqueued id) ∨
    (∃ row : Job, row.state = JobState.pending ∧ row.attempts = 0 ∧
      (∀ j ∈ db.jobs, j.id ≠ row.id) ∧
      enqueueJob db parsed now
        = ({ jobs := db.jobs ++ [row], config := db.config },
           EnqueueReport.enqueued row.id)) := by
  cases parsed with
  | none => left; exact ⟨_, rfl, by intro id h; cases h⟩
  | some job =>
    simp only [enqueueJob]
    by_cases hv : (!truthyStr job.id || !truthyStr job.command) = true
    · left; rw [if_pos hv]; exact ⟨_, rfl, by intro id h; cases h⟩
    · rw [if_neg hv]
      by_cases hdup : (db.jobs.any (fun j => decide (j.id = job.id.getD ""))) = true
      · left; rw [if_pos hdup]; exact ⟨_, rfl, by intro id h; cases h⟩
      · right
        rw [if_neg hdup]
        refine ⟨_, rfl, rfl, ?_, rfl⟩
        intro j hj e
        apply hdup
        rw [List.any_eq_true]
        exact ⟨j, hj, by simpa using e⟩

/-! ## The invariant is kept by every step -/

theorem jobOk_congr {ge : Nat → String → Bool} {L L' : List Job} {R R' : String → Nat} {j : Job}
    (h : JobOk ge L R j) (hR : R' j.id = R j.id) (hL : j ∈ L' ↔ j ∈ L) : JobOk ge L' R' j := by
  intro m hm
  have h1 := h m hm
  revert h1
  cases j.state <;> simp only [hR, hL] <;> exact id

theorem inv_replace {ge : Nat → String → Bool} {jobs L : List Job} {R : String → Nat} (ht : TableInv jobs L)
    (hok : ∀ j ∈ jobs, JobOk ge L R j) (p r : Job) (hp : p ∈ jobs) (hid : r.id = p.id)
    (L' : List Job) (R' : String → Nat)
    (hL : ∀ x ∈ L', (x = r ∧ r.state = JobState.processing) ∨ (x ∈ L ∧ x ≠ p))
    (hL2 : ∀ x ∈ L, x ≠ p → x ∈ L')
    (hnd : L'.Nodup)
    (hR : ∀ id, id ≠ p.id → R' id = R id)
    (hr : JobOk ge L' R' r) :
    TableInv (jobs.map (fun j => if j = p then r else j)) L' ∧
      ∀ j ∈ jobs.map (fun j => if j = p then r else j), JobOk ge L' R' j := by
  obtain ⟨hu, hin, _⟩ := ht
  refine ⟨⟨?_, ?_, hnd⟩, ?_⟩
  · rw [replace_ids hid]; exact hu
  · intro x hx
    rcases hL x hx with ⟨e, hs⟩ | ⟨hxl, hne⟩
    · subst e; exact ⟨mem_replace_self hp, hs⟩
    · exact ⟨mem_replace_of_ne (hin x hxl).1 hne, (hin x hxl).2⟩
  · intro j hj
    rcases mem_replace hj with e | ⟨hjm, hne⟩
    · subst e; exact hr
    · have hidne : j.id ≠ p.id := fun e => hne (eq_of_id_eq hu hjm hp e)
      apply jobOk_congr (hok j hjm) (hR _ hidne)
      constructor
      · intro hjl
        rcases hL j hjl with ⟨e, _⟩ | ⟨h', _⟩
        · exact absurd (by rw [e, hid]) hidne
        · exact h'
      · intro hjl
        exact hL2 j hjl hne

theorem inv_enqueue (ge : Nat → String → Bool) (s : Sys) (parsed : Option Payload) (now : Int)
    (h : Inv ge s) : Inv ge (step ge s (Action.enqueue parsed now)) := by
  obtain ⟨⟨hu, hin, hnd⟩, hok⟩ := h
  rcases enqueueJob_cases s.db parsed now with ⟨rep, hres, hrep⟩ | ⟨row, hst, hat, hnew, hres⟩
  · have hs : step ge s (Action.enqueue parsed now) = s := by
      cases rep with
      | enqueued id => exact absurd rfl (hrep id)
      | errorEnqueuing e => simp only [step, hres]
      | alreadyExists id => simp only [step, hres]
      | threw e => simp only [step, hres]
    rw [hs]
    exact ⟨⟨hu, hin, hnd⟩, hok⟩
  · simp only [step, hres, Inv]
    refine ⟨⟨?_, ?_, hnd⟩, ?_⟩
    · rw [List.map_append, List.nodup_append]
      refine ⟨hu, by simp, ?_⟩
      intro a ha hb
      simp only [List.map_cons, List.map_nil, List.mem_singleton] at hb
      obtain ⟨j, hj, e⟩ := List.mem_map.mp ha
      exact hnew j hj (by rw [e, hb])
    · intro r hr
      exact ⟨List.mem_append_left _ (hin r hr).1, (hin r hr).2⟩
    · intro j hj
      rcases List.mem_append.mp hj with hjm | hjr
      · apply jobOk_congr (hok j hjm)
        · exact Function.update_noteq (hnew j hjm) _ _
        · exact Iff.rfl
      · simp only [List.mem_singleton] at hjr
        subst hjr
        intro m _
        simp only [hst, hat, Function.update_same]
        exact ⟨trivial, by simp⟩

theorem inv_fetch (ge : Nat → String → Bool) (s : Sys) (w : String) (now : Int)
    (h : Inv ge s) : Inv ge (step ge s (Action.fetch w now)) := by
  obtain ⟨⟨hu, hin, hnd⟩, hok⟩ := h
  rcases fetchJob_cases s.db w now hu with ⟨_, hres⟩ | ⟨p, hp, hel, _, hres⟩
  · simp only [step, hres, Inv, Option.toList, List.nil_append]
    exact ⟨⟨hu, hin, hnd⟩, hok⟩
  · simp only [step, hres, Inv, Option.toList, List.singleton_append]
    have hpend : p.state = JobState.pending := ((eligible_iff _ _).mp hel).1
    have hnotin : ∀ x ∈ s.inflight, x ≠ p := by
      intro x hx e
      have := (hin x hx).2
      rw [e, hpend] at this
      cases this
    have hrn : claimRow w now p ∉ s.inflight := by
      intro hc
      have e : claimRow w now p = p := eq_of_id_eq hu (hin _ hc).1 hp rfl
      have : (claimRow w now p).state = p.state := by rw [e]
      rw [hpend] at this
      simp [claimRow] at this
    apply inv_replace ⟨hu, hin, hnd⟩ hok p (claimRow w now p) hp rfl
      (claimRow w now p :: s.inflight) s.runs
    · intro x hx
      rcases List.mem_cons.mp hx with e | hxl
      · exact Or.inl ⟨e, rfl⟩
      · exact Or.inr ⟨hxl, hnotin x hxl⟩
    · intro x hx _
      exact List.mem_cons_of_mem _ hx
    · exact List.nodup_cons.mpr ⟨hrn, hnd⟩
    · intro id _; rfl
    · intro m hm
      have hp' := hok p hp m hm
      simp only [hpend] at hp'
      simp only [claimRow, List.mem_cons, true_or, not_true_eq_false, true_implies,
        false_implies, and_true]
      exact ⟨hp'.1, trivial, hp'.2⟩

theorem attemptsReached_int (ge : Nat → String → Bool) (n : Nat) (m : Int) :
    attemptsReached ge n (ColVal.int m) = true ↔ m ≤ (n : Int) := by
  simp [attemptsReached]

theorem inv_process (ge : Nat → String → Bool) (s : Sys) (job : Job) (outcome : Outcome)
    (now now2 : Int) (h : Inv ge s) : Inv ge (step ge s (Action.process job outcome now now2)) := by
  by_cases hjin : job ∈ s.inflight
  swap
  · simp only [step, if_neg hjin]; exact h
  obtain ⟨⟨hu, hin, hnd⟩, hok⟩ := h
  have hj := (hin job hjin).1
  have hst := (hin job hjin).2
  have hold : ∀ m : Int,
      (∀ n : Nat, m ≤ (n : Int) → attemptsReached ge n job.max_retries = true) →
      s.runs job.id = job.attempts ∧ (job.attempts : Int) + 1 ≤ max m 1 := by
    intro m hm
    have := hok job hj m hm
    simp only [hst] at this
    exact ⟨this.1 hjin, this.2.2⟩
  have hmem : ∀ x, x ∈ s.inflight.erase job ↔ x ≠ job ∧ x ∈ s.inflight :=
    fun x => hnd.mem_erase_iff
  have key : ∀ r : Job, r.id = job.id →
      JobOk ge (s.inflight.erase job) (Function.update s.runs job.id (s.runs job.id + 1)) r →
      TableInv (s.db.jobs.map (fun j => if j = job then r else j)) (s.inflight.erase job) ∧
      ∀ j ∈ s.db.jobs.map (fun j => if j = job then r else j),
        JobOk ge (s.inflight.erase job) (Function.update s.runs job.id (s.runs job.id + 1)) j := by
    intro r hid hr
    apply inv_replace ⟨hu, hin, hnd⟩ hok job r hj hid
    · intro x hx
      exact Or.inr ⟨((hmem x).mp hx).2, ((hmem x).mp hx).1⟩
    · intro x hx hne
      exact (hmem x).mpr ⟨hne, hx⟩
    · exact hnd.erase job
    · intro id hne
      exact Function.update_noteq hne _ _
    · exact hr
  simp only [step, if_pos hjin, Inv]
  cases outcome with
  | success =>
    rw [processJob_success ge hu hj]
    apply key { job with state := JobState.completed, updated_at := now, error := none } rfl
    intro m hm
    obtain ⟨h1, h2⟩ := hold m hm
    simp only [Function.update_same]
    exact ⟨by omega, h2⟩
  | failure message =>
    by_cases hr : attemptsReached ge (job.attempts + 1) job.max_retries = true
    · rw [processJob_dead ge hu hj message now now2 hr]
      apply key { job with state := JobState.dead, updated_at := now,
                           attempts := job.attempts + 1, error := some message } rfl
      intro m hm
      obtain ⟨h1, h2⟩ := hold m hm
      simp only [Function.update_same]
      refine ⟨by omega, ?_⟩
      push_cast
      exact h2
    · have hr' : attemptsReached ge (job.attempts + 1) job.max_retries = false := by
        simpa using hr
      cases ht : toISOString ((parseInt ((getConfig s.db "backoff_base").getD "2")).map
          (fun b => now2 + b ^ (job.attempts + 1) * 1000)) with
      | ok t =>
        rw [processJob_retry ge hu hj message now now2 hr' ht]
        apply key { job with state := JobState.pending, updated_at := now,
                             attempts := job.attempts + 1, run_at := t,
                             error := some message } rfl
        intro m hm
        obtain ⟨h1, h2⟩ := hold m hm
        have hlt : ¬ (m ≤ ((job.attempts + 1 : Nat) : Int)) := by
          intro hle
          exact hr (hm (job.attempts + 1) hle)
        simp only [Function.update_same]
        refine ⟨by omega, ?_⟩
        push_cast at hlt ⊢
        have : m ≤ max m 1 := le_max_left _ _
        omega
      | error e =>
        rw [processJob_throw ge s.db job message now now2 hr' ht]
        have hkey := key job rfl (by
          intro m hm
          obtain ⟨h1, h2⟩ := hold m hm
          simp only [hst, Function.update_same]
          refine ⟨?_, ?_, h2⟩
          · intro hc; exact absurd rfl ((hmem job).mp hc).1
          · intro _; omega)
        rw [replace_self] at hkey
        exact hkey

theorem inv_retryDlq (ge : Nat → String → Bool) (s : Sys) (jobId : String) (now : Int)
    (h : Inv ge s) : Inv ge (step ge s (Action.retryDlq jobId now)) := by
  obtain ⟨⟨hu, hin, hnd⟩, hok⟩ := h
  by_cases hex : ∃ d ∈ s.db.jobs, d.id = jobId ∧ d.state = JobState.dead
  · obtain ⟨d, hd, hid, hdead⟩ := hex
    simp only [step, retryDlqJob_hit hu jobId now hd hid hdead, Inv]
    apply inv_replace ⟨hu, hin, hnd⟩ hok d
      { d with state := JobState.pending, attempts := 0, error := none, run_at := now,
               updated_at := now } hd rfl s.inflight
    · intro x hx
      refine Or.inr ⟨hx, ?_⟩
      intro e
      have := (hin x hx).2
      rw [e, hdead] at this
      cases this
    · intro x hx _; exact hx
    · exact hnd
    · intro id hne
      exact Function.update_noteq (by rw [← hid]; exact hne) _ _
    · intro m _
      show Function.update s.runs jobId 0 d.id = 0 ∧ ((0 : Nat) : Int) + 1 ≤ max m 1
      rw [hid, Function.update_same]
      exact ⟨rfl, by simp⟩
  · have hmiss : ∀ j ∈ s.db.jobs, ¬ (j.id = jobId ∧ j.state = JobState.dead) := by
      intro j hj hc
      exact hex ⟨j, hj, hc⟩
    simp only [step, retryDlqJob_miss s.db jobId now hmiss, Inv]
    exact ⟨⟨hu, hin, hnd⟩, hok⟩

theorem inv_step (ge : Nat → String → Bool) (s : Sys) (a : Action) (h : Inv ge s) :
    Inv ge (step ge s a) := by
  cases a with
  | enqueue parsed now => exact inv_enqueue ge s parsed now h
  | setConfig key value => exact h
  | fetch w now => exact inv_fetch ge s w now h
  | process job outcome now now2 => exact inv_process ge s job outcome now now2 h
  | retryDlq jobId now => exact inv_retryDlq ge s jobId now h

theorem inv_run (ge : Nat → String → Bool) : ∀ (actions : List Action) (s : Sys), Inv ge s →
    Inv ge (run ge s actions)
  | [], _, h => h
  | a :: rest, s, h => inv_run ge rest (step ge s a) (inv_step ge s a h)

theorem inv_initSys (ge : Nat → String → Bool) : Inv ge initSys := by
  refine ⟨⟨?_, ?_, ?_⟩, ?_⟩
  · exact List.nodup_nil
  · intro r hr; cases hr
  · exact List.nodup_nil
  · intro j hj; cases hj

/-- C5, as the code has it.  In every state reachable from the initialised
store by `enqueueJob`, `setConfig`, `fetchJob`, `processJob` and `retryDlqJob`
steps, and for every job: if `m` is an integer from which on the test of
`processJob`, `n >= max_retries`, is true (`m = max_retries` when the row holds
an integer), then `attempts <= max m 1`, and the command of the job was
executed at most `max m 1` times since the job was enqueued or last replayed
from the DLQ. -/
theorem attempts_and_runs_bounded (ge : Nat → String → Bool) (actions : List Action) :
    ∀ j ∈ (run ge initSys actions).db.jobs, ∀ m : Int,
      (∀ n : Nat, m ≤ (n : Int) → attemptsReached ge n j.max_retries = true) →
      (j.attempts : Int) ≤ max m 1 ∧
      (((run ge initSys actions).runs j.id : Nat) : Int) ≤ max m 1 := by
  intro j hj m hm
  have h := (inv_run ge actions initSys (inv_initSys ge)).2 j hj m hm
  revert h
  cases j.state with
  | pending => simp only; intro h; omega
  | processing =>
    simp only
    intro h
    by_cases c : j ∈ (run ge initSys actions).inflight
    · have := h.1 c; omega
    · have := h.2.1 c; omega
  | completed => simp only; intro h; omega
  | dead => simp only; intro h; omega

/-- A row that holds the integer `m`: the test of `processJob` is true from
`m` on, so the bound of C5 is `max m 1`. -/
theorem attemptsReached_from (ge : Nat → String → Bool) (m : Int) :
    ∀ n : Nat, m ≤ (n : Int) → attemptsReached ge n (ColVal.int m) = true :=
  fun n h => (attemptsReached_int ge n m).mpr h

/-- C5, as stated, fails: after `config:set max_retries 0`, an enqueue, a claim
and one failed execution the job has `attempts = 1` and `max_retries = 0`. -/
theorem attempts_exceed_zero_max_retries :
    ∃ j ∈ (run sampleGe initSys zeroBudgetActions).db.jobs,
      j.max_retries = ColVal.int 0 ∧ j.attempts = 1 ∧ (0 : Int) < (j.attempts : Int) := by
  decide

/-- The bound of C5 at the state `zeroBudgetActions` leads to. -/
theorem attempts_and_runs_bounded_witness :
    zeroBudgetDead ∈ (run sampleGe initSys zeroBudgetActions).db.jobs ∧
    zeroBudgetDead.max_retries = ColVal.int 0 ∧
    ((zeroBudgetDead.attempts : Int) ≤ max 0 1 ∧
      (((run sampleGe initSys zeroBudgetActions).runs zeroBudgetDead.id : Nat) : Int)
        ≤ max 0 1) :=
  ⟨by decide, rfl,
    attempts_and_runs_bounded sampleGe zeroBudgetActions zeroBudgetDead (by decide) 0
      (attemptsReached_from sampleGe 0)⟩

/-- No bound of this kind holds for a job whose `max_retries` never makes the
test of `processJob` true: after `config:set max_retries abc` the job enqueued
with that default has failed four times and is pending again. -/
theorem attempts_unbounded_not_a_number :
    ∀ j ∈ (run geNotANumber initSys notANumberActions).db.jobs,
      j.id = "a" ∧ j.max_retries = ColVal.other "abc" ∧ j.attempts = 4 ∧
      j.state = JobState.pending ∧ (run geNotANumber initSys notANumberActions).runs "a" = 4 := by
  decide

/-! ## State transitions -/

theorem step_shape (ge : Nat → String → Bool) (s : Sys) (a : Action) (h : Inv ge s) :
    (step ge s a).db.jobs = s.db.jobs ∨
    (∃ row : Job, row.state = JobState.pending ∧ (∀ j ∈ s.db.jobs, j.id ≠ row.id) ∧
      (step ge s a).db.jobs = s.db.jobs ++ [row]) ∨
    (∃ p r : Job, p ∈ s.db.jobs ∧ r.id = p.id ∧
      (step ge s a).db.jobs = s.db.jobs.map (fun j => if j = p then r else j) ∧
      ((p.state = JobState.pending ∧ r.state = JobState.processing) ∨
       (p.state = JobState.processing ∧
          (r.state = JobState.completed ∨ r.state = JobState.pending ∨
            r.state = JobState.dead)) ∨
       (p.state = JobState.dead ∧ r.state = JobState.pending ∧
          ∃ id now, a = Action.retryDlq id now))) := by
  obtain ⟨⟨hu, hin, hnd⟩, _⟩ := h
  cases a with
  | enqueue parsed now =>
    rcases enqueueJob_cases s.db parsed now with ⟨rep, hres, _⟩ | ⟨row, hst, _, hnew, hres⟩
    · left; simp only [step, hres]
    · right; left
      exact ⟨row, hst, hnew, by simp only [step, hres]⟩
  | setConfig key value => left; rfl
  | fetch w now =>
    rcases fetchJob_cases s.db w now hu with ⟨_, hres⟩ | ⟨p, hp, hel, _, hres⟩
    · left; simp only [step, hres]
    · right; right
      refine ⟨p, claimRow w now p, hp, rfl, by simp only [step, hres], Or.inl ⟨?_, rfl⟩⟩
      exact ((eligible_iff _ _).mp hel).1
  | process job outcome now now2 =>
    by_cases hjin : job ∈ s.inflight
    swap
    · left; simp only [step, if_neg hjin]
    have hj := (hin job hjin).1
    have hst := (hin job hjin).2
    simp only [step, if_pos hjin]
    cases outcome with
    | success =>
      right; right
      rw [processJob_success ge hu hj]
      exact ⟨job, { job with state := JobState.completed, updated_at := now, error := none },
        hj, rfl, rfl, Or.inr (Or.inl ⟨hst, Or.inl rfl⟩)⟩
    | failure message =>
      by_cases hr : attemptsReached ge (job.attempts + 1) job.max_retries = true
      · right; right
        rw [processJob_dead ge hu hj message now now2 hr]
        exact ⟨job, { job with state := JobState.dead, updated_at := now,
                               attempts := job.attempts + 1, error := some message },
          hj, rfl, rfl, Or.inr (Or.inl ⟨hst, Or.inr (Or.inr rfl)⟩)⟩
      · have hr' : attemptsReached ge (job.attempts + 1) job.max_retries = false := by
          simpa using hr
        cases ht : toISOString ((parseInt ((getConfig s.db "backoff_base").getD "2")).map
            (fun b => now2 + b ^ (job.attempts + 1) * 1000)) with
        | ok t =>
          right; right
          rw [processJob_retry ge hu hj message now now2 hr' ht]
          exact ⟨job, { job with state := JobState.pending, updated_at := now,
                                 attempts := job.attempts + 1, run_at := t,
                                 error := some message },
            hj, rfl, rfl, Or.inr (Or.inl ⟨hst, Or.inr (Or.inl rfl)⟩)⟩
        | error e =>
          left
          rw [processJob_throw ge s.db job message now now2 hr' ht]
  | retryDlq jobId now =>
    by_cases hex : ∃ d ∈ s.db.jobs, d.id = jobId ∧ d.state = JobState.dead
    · obtain ⟨d, hd, hid, hdead⟩ := hex
      right; right
      simp only [step, retryDlqJob_hit hu jobId now hd hid hdead]
      exact ⟨d, { d with state := JobState.pending, attempts := 0, error := none,
                         run_at := now, updated_at := now },
        hd, rfl, rfl, Or.inr (Or.inr ⟨hdead, rfl, jobId, now, rfl⟩)⟩
    · have hmiss : ∀ j ∈ s.db.jobs, ¬ (j.id = jobId ∧ j.state = JobState.dead) := by
        intro j hj hc
        exact hex ⟨j, hj, hc⟩
      left
      simp only [step, retryDlqJob_miss s.db jobId now hmiss]

/-- C9. In every reachable state and for every step (`enqueueJob`, `setConfig`,
`fetchJob`, `processJob` recording an outcome, `retryDlqJob`): every job is
still there afterwards; its state is the same or has moved along
pending -> processing, processing -> completed, processing -> pending,
processing -> dead, or dead -> pending, the last only when the step is
`retryDlqJob`; and a job that was not there before is pending.  No edge leaves
`completed`, so a completed job keeps its state. -/
theorem state_moves_along_edges (ge : Nat → String → Bool) (actions : List Action)
    (a : Action) :
    (∀ j ∈ (run ge initSys actions).db.jobs,
      ∃ j' ∈ (step ge (run ge initSys actions) a).db.jobs, j'.id = j.id) ∧
    (∀ j ∈ (run ge initSys actions).db.jobs,
      ∀ j' ∈ (step ge (run ge initSys actions) a).db.jobs, j'.id = j.id →
        j'.state = j.state ∨
        (j.state = JobState.pending ∧ j'.state = JobState.processing) ∨
        (j.state = JobState.processing ∧
          (j'.state = JobState.completed ∨ j'.state = JobState.pending ∨
            j'.state = JobState.dead)) ∨
        (j.state = JobState.dead ∧ j'.state = JobState.pending ∧
          ∃ id now, a = Action.retryDlq id now)) ∧
    (∀ j' ∈ (step ge (run ge initSys actions) a).db.jobs,
      (∀ j ∈ (run ge initSys actions).db.jobs, j.id ≠ j'.id) →
        j'.state = JobState.pending) := by
  have hinv := inv_run ge actions initSys (inv_initSys ge)
  have hu := hinv.1.1
  rcases step_shape ge (run ge initSys actions) a hinv with
    hsame | ⟨row, hst, hnew, happ⟩ | ⟨p, r, hp, hid, hrep, hedge⟩
  · rw [hsame]
    refine ⟨fun j hj => ⟨j, hj, rfl⟩, ?_, ?_⟩
    · intro j hj j' hj' e
      rw [eq_of_id_eq hu hj' hj e]
      exact Or.inl rfl
    · intro j' hj' hno
      exact absurd rfl (hno j' hj')
  · rw [happ]
    refine ⟨fun j hj => ⟨j, List.mem_append_left _ hj, rfl⟩, ?_, ?_⟩
    · intro j hj j' hj' e
      rcases List.mem_append.mp hj' with hm | hm
      · rw [eq_of_id_eq hu hm hj e]
        exact Or.inl rfl
      · simp only [List.mem_singleton] at hm
        rw [hm] at e
        exact absurd e.symm (hnew j hj)
    · intro j' hj' hno
      rcases List.mem_append.mp hj' with hm | hm
      · exact absurd rfl (hno j' hm)
      · simp only [List.mem_singleton] at hm
        rw [hm]; exact hst
  · rw [hrep]
    refine ⟨?_, ?_, ?_⟩
    · intro j hj
      by_cases e : j = p
      · exact ⟨r, mem_replace_self hp, by rw [hid, e]⟩
      · exact ⟨j, mem_replace_of_ne hj e, rfl⟩
    · intro j hj j' hj' e
      rcases mem_replace hj' with hr | ⟨hm, _⟩
      · have hjp : j = p := eq_of_id_eq hu hj hp (by rw [← e, hr, hid])
        rw [hr, hjp]
        exact Or.inr hedge
      · rw [eq_of_id_eq hu hm hj e]
        exact Or.inl rfl
    · intro j' hj' hno
      rcases mem_replace hj' with hr | ⟨hm, _⟩
      · exact absurd (by rw [hr, hid]) (hno p hp)
      · exact absurd rfl (hno j' hm)

/-- C7. `retryDlqJob` on a table with a primary key.  If a row `d` with the
given id is dead, the database afterwards is the old one with `d` alone
replaced by `d` with state `pending`, `attempts = 0`, `error` cleared and
`run_at = updated_at = now`; the job is reported as re-queued; and the new row
passes the WHERE clause of `fetchJob` at every wall-clock reading `t` at or
after `now`.  If no row with that id is dead, the database is the same and the
job is reported as not found in the DLQ. -/
theorem retryDlqJob_contract (db : Db) (jobId : String) (now : Int) (hu : UniqueIds db) :
    (∀ d ∈ db.jobs, d.id = jobId → d.state = JobState.dead →
      ∃ r, r = { d with state := JobState.pending, attempts := 0, error := none,
                        run_at := now, updated_at := now } ∧
        retryDlqJob db jobId now
          = ({ jobs := db.jobs.map (fun j => if j = d then r else j), config := db.config },
             DlqReport.requeued jobId) ∧
        r ∈ (retryDlqJob db jobId now).1.jobs ∧
        ∀ t, WallClock now → WallClock t → now ≤ t → eligible t r = true) ∧
    ((∀ j ∈ db.jobs, ¬ (j.id = jobId ∧ j.state = JobState.dead)) →
      retryDlqJob db jobId now = (db, DlqReport.notFound jobId)) := by
  constructor
  · intro d hd hid hdead
    have hres := retryDlqJob_hit hu jobId now hd hid hdead
    refine ⟨_, rfl, hres, ?_, ?_⟩
    · rw [hres]
      exact mem_replace_self hd
    · intro t hnow ht hle
      simp [eligible, (isoLe_wallClock hnow ht).mpr hle]
  · exact retryDlqJob_miss db jobId now

/-! ## The retry delay where the timestamps sort chronologically -/

theorem toISOString_ok {t : Int} (h : WallClock t) : toISOString (some t) = Except.ok t := by
  unfold WallClock yearZeroMs yearTenThousandMs at h
  have hr : -maxTimeValue ≤ t ∧ t ≤ maxTimeValue := by
    unfold maxTimeValue; omega
  simp only [toISOString, if_pos hr]

/-- When `backoff_base` parses to `b` and `now2 + b ^ k` seconds, `k` the new
attempt count, is a wall-clock instant of the years 0000 to 9999, a failure
with retries left is recorded with that `run_at`, and no `fetchJob` at a
wall-clock reading before it returns the job. -/
theorem retry_delay_in_range (ge : Nat → String → Bool) (db : Db) (hu : UniqueIds db)
    (job : Job) (hj : job ∈ db.jobs) (message : String) (now now2 b : Int)
    (hr : attemptsReached ge (job.attempts + 1) job.max_retries = false)
    (hb : parseInt ((getConfig db "backoff_base").getD "2") = some b)
    (hw : WallClock (now2 + b ^ (job.attempts + 1) * 1000)) :
    processJob ge db job (Outcome.failure message) now now2
      = { db := { jobs := db.jobs.map (fun j => if j = job then
                    { job with state := JobState.pending, updated_at := now,
                               attempts := job.attempts + 1,
                               run_at := now2 + b ^ (job.attempts + 1) * 1000,
                               error := some message }
                    else j),
                  config := db.config },
          thrown := none, isProcessing := false } ∧
    ∀ (w : String) (t : Int), WallClock t → t < now2 + b ^ (job.attempts + 1) * 1000 →
      ∀ r, (fetchJob (processJob ge db job (Outcome.failure message) now now2).db w t
              false false).2 = some r → r.id ≠ job.id := by
  have ht : toISOString ((parseInt ((getConfig db "backoff_base").getD "2")).map
      (fun b => now2 + b ^ (job.attempts + 1) * 1000))
      = Except.ok (now2 + b ^ (job.attempts + 1) * 1000) := by
    rw [hb]; exact toISOString_ok hw
  have hres := processJob_retry ge hu hj message now now2 hr ht
  refine ⟨hres, ?_⟩
  intro w t hwt hlt r hret
  rw [hres] at hret
  have hu' := uniqueIds_replace job
    { job with state := JobState.pending, updated_at := now, attempts := job.attempts + 1,
               run_at := now2 + b ^ (job.attempts + 1) * 1000, error := some message } hu rfl
  rcases fetchJob_cases _ w t hu' with ⟨_, hf⟩ | ⟨p, hp, hel, _, hf⟩
  · rw [hf] at hret; cases hret
  · rw [hf] at hret
    simp only [Option.some.injEq] at hret
    intro hid
    have hpid : p.id = job.id := by rw [← hid, ← hret]; rfl
    have hdue : isoLe p.run_at t = true := ((eligible_iff _ _).mp hel).2
    rcases mem_replace hp with e | ⟨hpm, hne⟩
    · rw [e] at hdue
      have := (isoLe_wallClock hw hwt).mp hdue
      omega
    · exact hne (eq_of_id_eq hu hpm hj hpid)

/-- For every store, a well-formed payload whose id is stored already makes
`enqueueJob` reject with ReferenceError and leaves the store as it is. -/
theorem enqueueJob_duplicate (db : Db) (job : Payload) (now : Int) (id command : String)
    (hid : job.id = some id) (hcmd : job.command = some command)
    (hne : id ≠ "") (hce : command ≠ "") (hdup : ∃ j ∈ db.jobs, j.id = id) :
    enqueueJob db (some job) now = (db, EnqueueReport.threw JsError.referenceError) := by
  obtain ⟨j, hjm, hj⟩ := hdup
  have hany : (db.jobs.any (fun j => decide (j.id = id))) = true := by
    rw [List.any_eq_true]
    exact ⟨j, hjm, by simpa using hj⟩
  simp [enqueueJob, hid, hcmd, truthyStr, hne, hce, hany]

/-! ## The claim protocol in time order -/

/-- `fetchJob` in time order, for a database and a clock reading whose
timestamps lie in the years 0000 to 9999: when no row is pending and due it
returns no job and changes nothing; otherwise it claims a row that is pending
and due and was created no later than any other such row, changes only its
`state`, `updated_at` and `worker_id`, and returns it. -/
theorem fetchJob_contract_wallClock (db : Db) (workerId : String) (now : Int)
    (hu : UniqueIds db) (hnow : WallClock now)
    (hw : ∀ j ∈ db.jobs, WallClock j.run_at ∧ WallClock j.created_at) :
    ((∀ j ∈ db.jobs, ¬ (j.state = JobState.pending ∧ j.run_at ≤ now)) →
        fetchJob db workerId now false false = (db, none)) ∧
    ((∃ j ∈ db.jobs, j.state = JobState.pending ∧ j.run_at ≤ now) →
        ∃ p r, p ∈ db.jobs ∧ p.state = JobState.pending ∧ p.run_at ≤ now ∧
          (∀ j ∈ db.jobs, j.state = JobState.pending → j.run_at ≤ now →
            p.created_at ≤ j.created_at) ∧
          r = { p with state := JobState.processing, updated_at := now,
                       worker_id := some workerId } ∧
          fetchJob db workerId now false false
            = ({ jobs := db.jobs.map (fun j => if j = p then r else j),
                 config := db.config }, some r)) := by
  have hdue : ∀ j ∈ db.jobs, (isoLe j.run_at now = true ↔ j.run_at ≤ now) :=
    fun j hj => isoLe_wallClock (hw j hj).1 hnow
  obtain ⟨h1, h2⟩ := fetchJob_contract db workerId now hu
  constructor
  · intro hnone
    apply h1
    intro j hj hc
    exact hnone j hj ⟨hc.1, (hdue j hj).mp hc.2⟩
  · rintro ⟨j₀, hj₀, hs₀, hr₀⟩
    obtain ⟨p, r, hp, hps, hpr, hold, hr, hres⟩ := h2 ⟨j₀, hj₀, hs₀, (hdue j₀ hj₀).mpr hr₀⟩
    refine ⟨p, r, hp, hps, (hdue p hp).mp hpr, ?_, hr, hres⟩
    intro j hj hs hrj
    exact (isoLe_wallClock (hw p hp).2 (hw j hj).2).mp (hold j hj hs ((hdue j hj).mpr hrj))

/-- C2, as the code has it.  Claim calls by any workers at any clock readings,
one atomic step each and nothing else in between, never return one job twice.
If moreover `now`, the clock readings of the calls and the `run_at` of the
pending jobs lie in the years 0000 to 9999, the calls read clocks at which the
same pending jobs are due as at `now`, and there are at least as many calls as
there are jobs pending with `run_at <= now`, then every such job has been
returned by exactly one call. -/
theorem claim_calls_once_each (db : Db) (now : Int) (calls : List (String × Int))
    (hu : UniqueIds db) :
    (returnedIds (claimCalls db calls).2).Nodup ∧
    (WallClock now → (∀ c ∈ calls, WallClock c.2) →
      (∀ j ∈ db.jobs, j.state = JobState.pending → WallClock j.run_at) →
      (∀ c ∈ calls, ∀ j ∈ db.jobs, j.state = JobState.pending →
        (j.run_at ≤ c.2 ↔ j.run_at ≤ now)) →
      (db.jobs.filter (fun j =>
        decide (j.state = JobState.pending ∧ j.run_at ≤ now))).length ≤ calls.length →
      ∀ j ∈ db.jobs, j.state = JobState.pending → j.run_at ≤ now →
        (returnedIds (claimCalls db calls).2).count j.id = 1) := by
  refine ⟨(claimCalls_once_textOrder db now calls hu).1, ?_⟩
  intro hnow hcalls hrun hsame hlen j hj hs hr
  have hdue : ∀ t, WallClock t → ∀ x ∈ db.jobs, x.state = JobState.pending →
      (isoLe x.run_at t = true ↔ x.run_at ≤ t) :=
    fun t ht x hx hxs => isoLe_wallClock (hrun x hx hxs) ht
  have hfil : db.jobs.filter (fun j =>
      decide (j.state = JobState.pending) && isoLe j.run_at now)
      = db.jobs.filter (fun j => decide (j.state = JobState.pending ∧ j.run_at ≤ now)) := by
    apply List.filter_congr
    intro x hx
    by_cases hxs : x.state = JobState.pending
    · by_cases hxr : x.run_at ≤ now
      · simp [hxs, hxr, (hdue now hnow x hx hxs).mpr hxr]
      · have : ¬ isoLe x.run_at now = true := fun c => hxr ((hdue now hnow x hx hxs).mp c)
        simp [hxs, hxr, this]
    · simp [hxs]
  apply (claimCalls_once_textOrder db now calls hu).2
  · intro c hc x hx hxs
    rw [Bool.eq_iff_iff, hdue c.2 (hcalls c hc) x hx hxs, hdue now hnow x hx hxs]
    exact hsame c hc x hx hxs
  · rw [hfil]; exact hlen
  · exact hj
  · exact hs
  · exact (hdue now hnow j hj hs).mpr hr

/-- Two claim calls on a database with one job due: the job is returned
once. -/
theorem claim_calls_once_each_witness :
    UniqueIds oneDueJobDb ∧
    (returnedIds (claimCalls oneDueJobDb [("w1", t₀ + 1000), ("w2", t₀ + 1001)]).2).Nodup ∧
    (returnedIds (claimCalls oneDueJobDb [("w1", t₀ + 1000), ("w2", t₀ + 1001)]).2).count
      dueJob.id = 1 :=
  ⟨by decide,
   (claim_calls_once_each oneDueJobDb (t₀ + 1000) [("w1", t₀ + 1000), ("w2", t₀ + 1001)]
      (by decide)).1,
   (claim_calls_once_each oneDueJobDb (t₀ + 1000) [("w1", t₀ + 1000), ("w2", t₀ + 1001)]
      (by decide)).2 (by decide) (by decide) (by decide) (by decide) (by decide)
      dueJob (by decide) (by decide) (by decide)⟩

/-- C2, as stated, fails.  At `now = t₀ + 1000` the database holds one job
pending and due, `a`, and an older job `x` in backoff until `t₀ + 2000`.  One
claim call, as many as jobs due, is made at `t₀ + 3000`, when `x` has fallen
due: it returns `x`, the older one, and `a` has been returned to no caller.
The same happens with a call at `now` itself when the `run_at` of `x` is an
instant past the year 9999, whose ISO text sorts before that of `now`. -/
theorem claim_call_after_backoff_skips_due_job :
    UniqueIds backoffAndDueDb ∧
    (backoffAndDueDb.jobs.filter (fun j =>
      decide (j.state = JobState.pending ∧ j.run_at ≤ t₀ + 1000))) = [dueJob] ∧
    [("w1", t₀ + 3000)].length = 1 ∧
    returnedIds (claimCalls backoffAndDueDb [("w1", t₀ + 3000)]).2 = ["x"] ∧
    (returnedIds (claimCalls backoffAndDueDb [("w1", t₀ + 3000)]).2).count dueJob.id = 0 ∧
    UniqueIds farFutureAndDueDb ∧
    (farFutureAndDueDb.jobs.filter (fun j =>
      decide (j.state = JobState.pending ∧ j.run_at ≤ t₀ + 1000))) = [dueJob] ∧
    returnedIds (claimCalls farFutureAndDueDb [("w1", t₀ + 1000)]).2 = ["x"] ∧
    (returnedIds (claimCalls farFutureAndDueDb [("w1", t₀ + 1000)]).2).count dueJob.id = 0 := by
  decide

/-! ## The contracts at sample inputs -/

/-- The contract of `fetchJob` on a database with one job due. -/
theorem fetchJob_contract_witness :
    UniqueIds oneDueJobDb ∧
    ∃ p r, p ∈ oneDueJobDb.jobs ∧ p.state = JobState.pending ∧
      isoLe p.run_at (t₀ + 1000) = true ∧
      (∀ j ∈ oneDueJobDb.jobs, j.state = JobState.pending →
        isoLe j.run_at (t₀ + 1000) = true → isoLe p.created_at j.created_at = true) ∧
      r = { p with state := JobState.processing, updated_at := t₀ + 1000,
                   worker_id := some "w1" } ∧
      fetchJob oneDueJobDb "w1" (t₀ + 1000) false false
        = ({ jobs := oneDueJobDb.jobs.map (fun j => if j = p then r else j),
             config := oneDueJobDb.config }, some r) :=
  ⟨by decide,
   (fetchJob_contract oneDueJobDb "w1" (t₀ + 1000) (by decide)).2
     ⟨dueJob, by decide, by decide, by decide⟩⟩

/-- The contract of `retryDlqJob` (C7) on a database whose job is dead. -/
theorem retryDlqJob_contract_witness :
    UniqueIds deadJobDb ∧
    ∃ r, r = { deadJob with state := JobState.pending, attempts := 0, error := none,
                            run_at := t₀ + 9000, updated_at := t₀ + 9000 } ∧
      retryDlqJob deadJobDb "a" (t₀ + 9000)
        = ({ jobs := deadJobDb.jobs.map (fun j => if j = deadJob then r else j),
             config := deadJobDb.config }, DlqReport.requeued "a") ∧
      r ∈ (retryDlqJob deadJobDb "a" (t₀ + 9000)).1.jobs ∧
      ∀ t, WallClock (t₀ + 9000) → WallClock t → t₀ + 9000 ≤ t → eligible t r = true :=
  ⟨by decide,
   (retryDlqJob_contract deadJobDb "a" (t₀ + 9000) (by decide)).1 deadJob (by decide) rfl rfl⟩

/-! ## Evaluations at the failing inputs -/

/-- C1.  The store reached by `farFutureActions` holds job `a`, pending with
`run_at` in the year 11530.  At the clock reading `t₀ + 1501` no job is pending
with `run_at <= now`, yet `fetchJob` does not return "no job" and does not
leave the store unchanged: it claims `a` and returns it. -/
theorem fetchJob_returns_job_not_due :
    (∀ j ∈ (run sampleGe initSys farFutureActions).db.jobs,
      j.id = "a" ∧ j.state = JobState.pending ∧
      j.run_at = (t₀ + 1500) + 300000000000 ^ 1 * 1000) ∧
    (∀ j ∈ (run sampleGe initSys farFutureActions).db.jobs,
      ¬ (j.state = JobState.pending ∧ j.run_at ≤ t₀ + 1501)) ∧
    ((fetchJob (run sampleGe initSys farFutureActions).db "w2" (t₀ + 1501)
        false false).2.map (fun j => j.id)) = some "a" ∧
    (∀ j ∈ (fetchJob (run sampleGe initSys farFutureActions).db "w2" (t₀ + 1501)
        false false).1.jobs,
      j.state = JobState.processing ∧ j.worker_id = some "w2") := by
  decide

/-- C10. With `backoff_base` set to `abc`, a failed execution of a claimed job
that has retries left does not end in a persisted transition: `parseInt` gives
NaN, `toISOString` raises RangeError inside the `catch` block, the promise of
`processJob` rejects, and the row is still `processing` with its old
`attempts`, `run_at` and `error`. -/
theorem processJob_nan_backoff_throws :
    processJob sampleGe (sampleDb "abc") sampleJob (Outcome.failure "exit 1") (t₀ + 1000)
        (t₀ + 1500)
      = { db := sampleDb "abc", thrown := some JsError.rangeError, isProcessing := true } ∧
    (sampleDb "abc").jobs = [sampleJob] ∧ sampleJob.state = JobState.processing := by
  decide

/-- C3. With `backoff_base` set to `10000000000000`, the first failure of a job
with `attempts + 1 < max_retries` does not make the row pending with
`attempts + 1`: the retry time is past the last valid date, `toISOString`
raises, and the database is what it was, the row `processing` with
`attempts = 0`. -/
theorem processJob_retry_not_recorded :
    sampleJob.attempts + 1 < 3 ∧ sampleJob.max_retries = ColVal.int 3 ∧
    (processJob sampleGe (sampleDb "10000000000000") sampleJob (Outcome.failure "exit 1")
        (t₀ + 1000) (t₀ + 1500)).db = sampleDb "10000000000000" ∧
    (processJob sampleGe (sampleDb "10000000000000") sampleJob (Outcome.failure "exit 1")
        (t₀ + 1000) (t₀ + 1500)).thrown = some JsError.rangeError ∧
    ∀ j ∈ (processJob sampleGe (sampleDb "10000000000000") sampleJob (Outcome.failure "exit 1")
        (t₀ + 1000) (t₀ + 1500)).db.jobs,
      j.state = JobState.processing ∧ j.attempts = 0 ∧ j.error = none := by
  decide

/-- C4. With `backoff_base` set to `300000000000`, the first failure of the
sample job is recorded with `run_at = now2 + 300000000000 ^ 1` seconds, an
instant past the year 9999 whose ISO text starts with `+`; one millisecond
after the failure was handled, long before that instant, `fetchJob` returns the
job.  With `backoff_base` set to `10000000000000` no `run_at` is recorded at
all: the row keeps the `run_at` it had. -/
theorem backoff_past_year_9999_claimable_at_once :
    (processJob sampleGe (sampleDb "300000000000") sampleJob (Outcome.failure "exit 1")
        (t₀ + 1000) (t₀ + 1500)).thrown = none ∧
    (∀ j ∈ (processJob sampleGe (sampleDb "300000000000") sampleJob (Outcome.failure "exit 1")
        (t₀ + 1000) (t₀ + 1500)).db.jobs,
      j.state = JobState.pending ∧ j.attempts = 1 ∧
      j.run_at = (t₀ + 1500) + 300000000000 ^ 1 * 1000 ∧ t₀ + 1501 < j.run_at) ∧
    ((fetchJob (processJob sampleGe (sampleDb "300000000000") sampleJob
        (Outcome.failure "exit 1") (t₀ + 1000) (t₀ + 1500)).db "w2" (t₀ + 1501)
        false false).2.map (fun j => j.id)) = some "a" ∧
    (processJob sampleGe (sampleDb "10000000000000") sampleJob (Outcome.failure "exit 1")
        (t₀ + 1000) (t₀ + 1500)).db.jobs = [sampleJob] ∧
    sampleJob.run_at = t₀ := by
  decide

/-- C6. One worker on a database with one job due: the loop-top check passes,
`fetchJob` issues the claim, SQLite runs the UPDATE, and before the result is
delivered (so before `processJob` sets `isProcessing`) SIGTERM arrives.  The
handler finds `isProcessing` false and calls `cleanupAndExit`: the process has
exited and the job it claimed is in state `processing`. -/
theorem sigterm_after_claim_abandons_job :
    (wrun sampleGe (startWorker oneDueJobDb "w1")
        [WEvent.loopTop (t₀ + 1000), WEvent.storeRuns, WEvent.sigterm]).pc = Pc.exited ∧
    (wrun sampleGe (startWorker oneDueJobDb "w1")
        [WEvent.loopTop (t₀ + 1000), WEvent.storeRuns, WEvent.sigterm]).claimed = ["a"] ∧
    ∀ j ∈ (wrun sampleGe (startWorker oneDueJobDb "w1")
        [WEvent.loopTop (t₀ + 1000), WEvent.storeRuns, WEvent.sigterm]).db.jobs,
      j.id = "a" ∧ j.state = JobState.processing ∧ j.worker_id = some "w1" := by
  decide

/-- C8. Enqueuing a well-formed payload whose id is already stored leaves the
database unchanged but does not end with the report `A job with ID ... already
exists`: the promise of `enqueueJob` rejects with ReferenceError. -/
theorem enqueueJob_duplicate_throws :
    enqueueJob (sampleDb "2") (some samplePayload) (t₀ + 5000)
      = (sampleDb "2", EnqueueReport.threw JsError.referenceError) ∧
    (enqueueJob (sampleDb "2") (some samplePayload) (t₀ + 5000)).2 ≠ EnqueueReport.alreadyExists "a" := by
  decide

end QueueCtl
